import Mathlib

/-!
# golang-web-proxy: host normaliser, blacklist dispatcher, response cache

A shallow embedding of `proxy.go` and `storage.go`.

Modelling conventions
* A Go `string` is a list of code points (`GoString`).  Index arithmetic on
  strings (`s[i:]`) counts code points; the only indices the program ever
  slices at are the ends of one-byte ASCII delimiters, where slicing by byte
  and slicing by code point give the same substring.
* A Go `map[string]T` is a function `GoString → Option T`; `none` is an absent
  key.  The unused global `cache` and the mutex of `Storage` are left out.
* A run-time panic and `log.Fatal` are values of `Failure` returned through
  `Except`.
* An instant is an integer number of nanoseconds since the Unix epoch, and the
  instant of every `time.Now()` call is a parameter.  `Time.UnixNano()` is an
  `int64`: `UnixNano` reduces the instant to the `int64` range.
* The body of an `http.Response` is a reference to a stream that can be read
  once; `State.bodies` holds what is still unread on every stream.
* Origin servers, the dialler and the library tables that are not part of the
  repository are fields of `Env`.  Read errors on a body stream are not
  modelled.  `Env.clientDo` stands for `http.Client.Do`, which consumes
  informational (1xx) responses itself, so every status code that
  `WriteHeader` accepts is taken as a final one.
* A failure carries no state: what a handler did before a panic is not
  observable in the result of the handler.
* Handlers record what they do to the outside world in `State.trace`.
-/

set_option autoImplicit false

namespace GoProxy

/-- Go `string`, as a list of code points. -/
abbrev GoString := List Char

/-- Ways a Go function can stop without returning. -/
inductive Failure where
  /-- A run-time panic: index out of range. -/
  | indexOutOfRange
  /-- A run-time panic: slice bounds out of range. -/
  | sliceBoundsOutOfRange
  /-- A run-time panic of `net/http`: invalid WriteHeader code. -/
  | invalidWriteHeaderCode
  /-- A run-time panic: nil dereference. -/
  | nilDereference
  /-- The process ended through `log.Fatal` (`os.Exit(1)`). -/
  | fatalExit
  deriving DecidableEq, Repr

deriving instance DecidableEq for Except

/-! ## String helpers of the Go standard library used by the program -/

/-- `strings.Split(s, sep)` for a one-character separator: the pieces of `s`
between occurrences of `sep`; never empty. -/
def Split : GoString → Char → List GoString
  | [], _ => [[]]
  | c :: cs, sep =>
    if c = sep then [] :: Split cs sep
    else
      match Split cs sep with
      | [] => [[c]]
      | p :: ps => (c :: p) :: ps

/-- Go slice indexing `xs[i]`: panics when `i` is out of range. -/
def index {α : Type} (xs : List α) (i : Nat) : Except Failure α :=
  match xs.get? i with
  | some x => .ok x
  | none => .error .indexOutOfRange

/-- Go slicing `s[i:]`: panics when `i` is beyond the length. -/
def sliceFrom (s : GoString) (i : Nat) : Except Failure GoString :=
  if i ≤ s.length then .ok (s.drop i) else .error .sliceBoundsOutOfRange

/-- `regexp.MustCompile("\\.").FindAllStringIndex(s, -1)` read from offset `i`:
one `[start, end]` pair per dot, in order of occurrence. -/
def findAllDots : GoString → Nat → List (Nat × Nat)
  | [], _ => []
  | c :: cs, i =>
    if c = '.' then (i, i + 1) :: findAllDots cs (i + 1)
    else findAllDots cs (i + 1)

/-- `dotre.FindAllStringIndex(s, -1)`. -/
def FindAllStringIndex (s : GoString) : List (Nat × Nat) := findAllDots s 0

/-! ## proxy.go: stripSubDomains -/

/-- `stripSubDomains` (proxy.go 114-128). -/
def stripSubDomains (reqURL : GoString) : Except Failure GoString := do
  let requestURL ← index (Split reqURL ':') 0
  let dotIndexArr := FindAllStringIndex requestURL
  let requestBaseHost ←
    if dotIndexArr.length > 1 then do
      let m ← index dotIndexArr (dotIndexArr.length - 2)
      let idxBase := m.2
      sliceFrom requestURL idxBase
    else pure []
  if requestBaseHost = [] then pure requestURL else pure requestBaseHost

/-! ### The reference rule of the specification -/

/-- The part of `s` before its first `':'` (all of `s` when there is none). -/
def hostPart (s : GoString) : GoString := s.takeWhile (fun c => c ≠ ':')

/-- The substring of `h` starting immediately after the second-to-last `'.'`:
the dot that has exactly one dot after it. -/
def afterSecondToLastDot : GoString → GoString
  | [] => []
  | c :: cs =>
    if c = '.' ∧ cs.count '.' = 1 then cs else afterSecondToLastDot cs

/-- Reference rule: with `h` the port-stripped host, the suffix after the
second-to-last dot when `h` has two or more dots, `h` itself otherwise. -/
def stripSubDomainsRef (s : GoString) : GoString :=
  let h := hostPart s
  if 2 ≤ h.count '.' then afterSecondToLastDot h else h

/-! ## storage.go -/

/-- Body bytes. -/
abbrev Bytes := List UInt8

/-- `http.Header`, a `map[string][]string`, as its list of entries. -/
abbrev Header := List (GoString × List GoString)

/-- `http.Response`, the fields the program uses.  `Body` is an
`io.ReadCloser`: a reference to a one-shot stream (`none` is a nil body), so
copying a `Response` copies the reference, not the bytes. -/
structure Response where
  StatusCode : Int
  Header : Header
  Body : Option Nat
  deriving DecidableEq, Repr

/-- `http.Response{}`, the zero value. -/
def Response.zero : Response := { StatusCode := 0, Header := [], Body := none }

/-- `Item` (storage.go 10-13). -/
structure Item where
  Content : Response
  Expiration : Int
  deriving DecidableEq, Repr

/-- The zero `Item`, which a map lookup yields for an absent key. -/
def Item.zero : Item := { Content := Response.zero, Expiration := 0 }

/-- Reduction of an integer to the `int64` range (two's complement). -/
def wrapInt64 (n : Int) : Int :=
  (n + 9223372036854775808) % 18446744073709551616 - 9223372036854775808

/-- The largest `int64`, `2^63 - 1`. -/
def maxInt64 : Int := 9223372036854775807

/-- The smallest `int64`, `-2^63`. -/
def minInt64 : Int := -9223372036854775808

/-- `Time.UnixNano()` of the instant `t` nanoseconds after the Unix epoch: an
`int64`, which wraps outside the years 1678-2262. -/
def UnixNano (t : Int) : Int := wrapInt64 t

/-- `Item.Expired` (storage.go 16-21); `now` is the instant `time.Now()`. -/
def Item.Expired (item : Item) (now : Int) : Bool :=
  if item.Expiration = 0 then false
  else decide (UnixNano now > item.Expiration)

/-- `Storage` (storage.go 24-27); the mutex is not modelled. -/
structure Storage where
  items : GoString → Option Item

/-- `NewStorage` (storage.go 30-35). -/
def NewStorage : Storage := { items := fun _ => none }

/-- `Storage.Get` (storage.go 38-50) executed at instant `now`: the returned
pair and the store afterwards. -/
def Storage.Get (s : Storage) (key : GoString) (now : Int) :
    (Response × Bool) × Storage :=
  let (item, prs) :=
    match s.items key with
    | some it => (it, true)
    | none => (Item.zero, false)
  if item.Expired now then
    ((Response.zero, false), { items := Function.update s.items key none })
  else if prs = false then
    ((Response.zero, false), s)
  else
    ((item.Content, true), s)

/-- `Storage.Store` (storage.go 53-61) executed at instant `now`;
`time.Now().Add(duration)` is the instant `now + duration`. -/
def Storage.Store (s : Storage) (key : GoString) (content : Response)
    (duration : Int) (now : Int) : Storage :=
  { items := Function.update s.items key
      (some { Content := content, Expiration := UnixNano (now + duration) }) }

/-- One cache operation together with the instant it runs at. -/
inductive CacheOp where
  | get (key : GoString) (now : Int)
  | store (key : GoString) (content : Response) (duration : Int) (now : Int)

/-- The key a cache operation works on. -/
def CacheOp.key : CacheOp → GoString
  | .get k _ => k
  | .store k _ _ _ => k

/-- Effect of one cache operation on the store. -/
def CacheOp.run (s : Storage) : CacheOp → Storage
  | .get k now => (s.Get k now).2
  | .store k c d now => s.Store k c d now

/-- Effect of a sequence of cache operations, left to right. -/
def runOps (s : Storage) (ops : List CacheOp) : Storage :=
  ops.foldl CacheOp.run s

/-! ## proxy.go: requests, response writer, environment -/

/-- `http.Request`, the fields the program uses.  `URL` is what the client
library forwards to; `RequestURI` is the raw request target. -/
structure Request where
  Method : GoString
  RequestURI : GoString
  Host : GoString
  URL : GoString
  deriving DecidableEq, Repr

def MethodGet : GoString := "GET".toList
def MethodConnect : GoString := "CONNECT".toList
def StatusOK : Int := 200
def StatusForbidden : Int := 403
def StatusInternalServerError : Int := 500
def StatusServiceUnavailable : Int := 503

/-- What `writer.(http.Hijacker)` and `Hijack()` do for a response writer. -/
inductive Hijack where
  /-- The writer is not an `http.Hijacker`. -/
  | unsupported
  /-- The writer is a hijacker and `Hijack()` returns an error. -/
  | fails (err : GoString)
  /-- The writer is a hijacker and `Hijack()` succeeds. -/
  | succeeds
  deriving DecidableEq, Repr

/-- `http.ResponseWriter`.  `header` is the live `Header()` map as a list of
`(key, value)` entries in insertion order; the first `WriteHeader` fixes the
status and the headers that go on the wire, later calls are ignored. -/
structure ResponseWriter where
  header : List (GoString × GoString)
  status : Option Int
  wireHeader : List (GoString × GoString)
  body : Bytes
  hijack : Hijack
  deriving DecidableEq, Repr

/-- A response writer as the server hands it to the handler. -/
def ResponseWriter.new (hijack : Hijack) : ResponseWriter :=
  { header := [], status := none, wireHeader := [], body := [], hijack := hijack }

/-- An answer of an origin server to `http.Client.Do`. -/
structure Reply where
  StatusCode : Int
  Header : Header
  body : Bytes
  deriving DecidableEq, Repr

/-- The parts of the standard library and of the outside world the handlers
call into. -/
structure Env where
  /-- `textproto.CanonicalMIMEHeaderKey`. -/
  canonicalKey : GoString → GoString
  /-- `unicode.ToLower` on code points outside ASCII. -/
  toLowerTable : Char → Char
  /-- `http.Client.Do`: `none` is a returned error. -/
  clientDo : Request → Option Reply
  /-- `net.DialTimeout("tcp", addr, 10s)`: `some err` is a returned error. -/
  dial : GoString → Option GoString

/-- Observable actions of the handlers, in order. -/
inductive Event where
  | closeRequestBody
  | storageGet (key : GoString)
  | storageStore (key : GoString)
  | clientDo (request : Request)
  | dial (addr : GoString)
  | hijacked
  /-- `go copyHeaders(dest, source)`; `toDestination` is the client-to-destination
  direction. -/
  | relay (toDestination : Bool)
  deriving DecidableEq, Repr

/-- The package-level variables (`blacklist`, `storage`), the body streams
that are alive, and the actions performed so far.  `bodies h` is what is still
unread on stream `h`. -/
structure State where
  blacklist : GoString → Option Bool
  storage : Storage
  bodies : Nat → Bytes
  nextBody : Nat
  trace : List Event

/-- `setup` (proxy.go 31-36) on a fresh process. -/
def setup : State :=
  { blacklist := fun _ => none, storage := NewStorage, bodies := fun _ => [],
    nextBody := 0, trace := [] }

/-- The value `time.ParseDuration(cacheDuration)` yields for the `"10s"` that
`setup` assigns, in nanoseconds. -/
def cacheDuration : Int := 10 * 1000000000

def State.emit (st : State) (e : Event) : State :=
  { st with trace := st.trace ++ [e] }

/-- `w.Header().Add(key, value)`. -/
def ResponseWriter.HeaderAdd (env : Env) (w : ResponseWriter)
    (key value : GoString) : ResponseWriter :=
  { w with header := w.header ++ [(env.canonicalKey key, value)] }

/-- `w.Header().Set(key, value)`. -/
def ResponseWriter.HeaderSet (env : Env) (w : ResponseWriter)
    (key value : GoString) : ResponseWriter :=
  { w with header :=
      w.header.filter (fun e => e.1 ≠ env.canonicalKey key)
        ++ [(env.canonicalKey key, value)] }

/-- `checkWriteHeaderCode(code)` of `net/http`: panics unless the code has
three digits. -/
def checkWriteHeaderCode (code : Int) : Except Failure Unit :=
  if code < 100 ∨ code > 999 then .error .invalidWriteHeaderCode else .ok ()

/-- `w.WriteHeader(code)`: a call after the header was written is ignored;
otherwise the code is checked and fixes the status and the headers on the
wire. -/
def ResponseWriter.WriteHeader (w : ResponseWriter) (code : Int) :
    Except Failure ResponseWriter :=
  match w.status with
  | some _ => .ok w
  | none => do
    checkWriteHeaderCode code
    pure { w with status := some code, wireHeader := w.header }

/-- `w.Write(data)`: writes the header with status 200 first when none was
written. -/
def ResponseWriter.Write (w : ResponseWriter) (data : Bytes) :
    Except Failure ResponseWriter := do
  let w ← w.WriteHeader StatusOK
  pure { w with body := w.body ++ data }

/-- `http.Error(w, error, code)`. -/
def httpError (env : Env) (w : ResponseWriter) (error : GoString) (code : Int) :
    Except Failure ResponseWriter := do
  let w := w.HeaderSet env "Content-Type".toList "text/plain; charset=utf-8".toList
  let w := w.HeaderSet env "X-Content-Type-Options".toList "nosniff".toList
  let w ← w.WriteHeader code
  w.Write ((error ++ ['\n']).flatMap String.utf8EncodeChar)

/-- `ioutil.ReadAll(body)`: everything still unread on the stream, which is
left at end-of-stream. -/
def ReadAll (st : State) (body : Option Nat) : Except Failure (Bytes × State) :=
  match body with
  | none => .error .nilDereference
  | some h => .ok (st.bodies h, { st with bodies := Function.update st.bodies h [] })

/-- `client.Do(request)` (proxy.go 150-153): a new response whose body is a
fresh stream holding the reply's bytes; an error ends the process through
`log.Fatal`. -/
def clientDo (env : Env) (request : Request) (st : State) :
    Except Failure (Response × State) :=
  let st := st.emit (.clientDo request)
  match env.clientDo request with
  | none => .error .fatalExit
  | some reply =>
    .ok ({ StatusCode := reply.StatusCode, Header := reply.Header,
           Body := some st.nextBody },
         { st with bodies := Function.update st.bodies st.nextBody reply.body,
                   nextBody := st.nextBody + 1 })

/-- Lines 164-174 of `handleHTTP`: copy the headers, write the status, read
the body to its end and write it. -/
def relayResponse (env : Env) (w : ResponseWriter) (response : Response)
    (st : State) : Except Failure (ResponseWriter × State) := do
  let w := response.Header.foldl
    (fun w kv => kv.2.foldl (fun w vv => w.HeaderAdd env kv.1 vv) w) w
  let w ← w.WriteHeader response.StatusCode
  let (result, st) ← ReadAll st response.Body
  let w ← w.Write result
  pure (w, st)

/-- Lines 148-160 of `handleHTTP`: forward the request upstream and store the
response under the original `RequestURI`.  `tStore` is the instant of the
`storage.Store` call. -/
def forwardAndStore (env : Env) (tStore : Int) (request : Request) (st : State) :
    Except Failure (Response × State) := do
  let key := request.RequestURI
  let request := { request with RequestURI := [] }
  let (unCached, st) ← clientDo env request st
  let st := st.emit (.storageStore key)
  let st := { st with storage := st.storage.Store key unCached cacheDuration tStore }
  pure (unCached, st)

/-- `handleHTTP` (proxy.go 137-175).  `tGet` is the instant of the
`storage.Get` call and `tStore` the instant of the `storage.Store` call. -/
def handleHTTP (env : Env) (tGet tStore : Int) (w : ResponseWriter)
    (request : Request) (st : State) : Except Failure (ResponseWriter × State) := do
  let st := st.emit (.storageGet request.RequestURI)
  let ((response, prs), storage) := st.storage.Get request.RequestURI tGet
  let st := { st with storage := storage }
  let (w, st) ←
    if prs = true ∧ request.Method = MethodGet then do
      let w := w.HeaderAdd env "cached".toList "1".toList
      relayResponse env w response st
    else do
      let (unCached, st) ← forwardAndStore env tStore request st
      relayResponse env w unCached st
  pure (w, st.emit .closeRequestBody)

/-- `handleHTTPS` (proxy.go 183-206).  What the relay goroutines do after the
function returned is outside the model. -/
def handleHTTPS (env : Env) (w : ResponseWriter) (request : Request) (st : State) :
    Except Failure (ResponseWriter × State) := do
  let st := st.emit (.dial request.Host)
  match env.dial request.Host with
  | some err =>
    let w ← httpError env w err StatusServiceUnavailable
    pure (w, st)
  | none =>
    let w ← w.WriteHeader StatusOK
    match w.hijack with
    | .unsupported =>
      let w ← httpError env w "Hijacking not supported".toList StatusInternalServerError
      pure (w, st)
    | .fails err =>
      -- line 200 has no return: both relays are started, on a nil client connection
      let w ← httpError env w err StatusServiceUnavailable
      let st := st.emit (.relay true)
      let st := st.emit (.relay false)
      pure (w, st)
    | .succeeds =>
      let st := st.emit .hijacked
      let st := st.emit (.relay true)
      let st := st.emit (.relay false)
      pure (w, st)

/-- The target host `connectionHandler` extracts (proxy.go 85-90). -/
def requestURL (request : Request) : Except Failure GoString :=
  if request.Method = MethodConnect then index (Split request.RequestURI ':') 0
  else index (Split request.RequestURI '/') 2

/-- `connectionHandler` (proxy.go 84-111). -/
def connectionHandler (env : Env) (tGet tStore : Int) (w : ResponseWriter)
    (request : Request) (st : State) : Except Failure (ResponseWriter × State) := do
  let requestURL ← requestURL request
  let requestBaseHost ← stripSubDomains requestURL
  match st.blacklist requestBaseHost with
  | some true =>
    let w ← w.WriteHeader StatusForbidden
    pure (w, st.emit .closeRequestBody)
  | _ =>
    if request.Method = MethodConnect then handleHTTPS env w request st
    else handleHTTP env tGet tStore w request st

/-! ## proxy.go: the console -/

/-- `unicode.IsSpace`. -/
def isSpace (c : Char) : Bool :=
  let n := c.toNat
  (0x09 ≤ n && n ≤ 0x0d) || n == 0x20 || n == 0x85 || n == 0xa0 || n == 0x1680 ||
  (0x2000 ≤ n && n ≤ 0x200a) || n == 0x2028 || n == 0x2029 || n == 0x202f ||
  n == 0x205f || n == 0x3000

/-- `unicode.ToLower`: `A`-`Z` go to `a`-`z`, other ASCII is unchanged, and
the table of the environment decides outside ASCII. -/
def toLowerRune (env : Env) (c : Char) : Char :=
  if c.toNat < 128 then
    if 'A'.toNat ≤ c.toNat ∧ c.toNat ≤ 'Z'.toNat then Char.ofNat (c.toNat + 32) else c
  else env.toLowerTable c

/-- `strings.ToLower`. -/
def ToLower (env : Env) (s : GoString) : GoString := s.map (toLowerRune env)

/-- Worker of `Fields`: `cur` is the field being read. -/
def fieldsAux : GoString → GoString → List GoString
  | [], cur => if cur = [] then [] else [cur]
  | c :: cs, cur =>
    if isSpace c then
      if cur = [] then fieldsAux cs [] else cur :: fieldsAux cs []
    else fieldsAux cs (cur ++ [c])

/-- `strings.Fields`: the maximal runs of non-space characters. -/
def Fields (s : GoString) : List GoString := fieldsAux s []

/-- `parseCommand` (proxy.go 58-73); log output is not modelled. -/
def parseCommand (env : Env) (input : GoString) (st : State) : Except Failure State := do
  let input := ToLower env input
  let command := Fields input
  if (← index command 0) = "block".toList then do
    let host ← index command 1
    pure { st with blacklist := Function.update st.blacklist host (some true) }
  else if (← index command 0) = "unblock".toList then do
    let host ← index command 1
    pure { st with blacklist := Function.update st.blacklist host (some false) }
  else if (← index command 0) = "lblock".toList then
    pure st
  else if (← index command 0) = "l".toList then
    pure st
  else
    pure st

/-- One turn of the loop of `readConsole` (proxy.go 46-55) on the line `text`
that `ReadString` returned. -/
def readConsoleStep (env : Env) (text : GoString) (st : State) : Except Failure State :=
  if text ≠ ['\n'] then parseCommand env text st else .ok st

/-- The `(key, value)` entries that copying the header map `h` with
`Header().Add` appends to a response writer (proxy.go 164-168). -/
def headerEntries (env : Env) (h : Header) : List (GoString × GoString) :=
  h.flatMap (fun kv => kv.2.map (fun v => (env.canonicalKey kv.1, v)))

/-! ## Sample data for the concrete instances below -/

/-- A request target used in the examples. -/
def sampleURI : GoString := "http://www.example.com/x".toList

/-- A response with status 200 whose body is stream 0. -/
def sampleResponse : Response :=
  { StatusCode := 200, Header := [("Content-Type".toList, ["text/plain".toList])],
    Body := some 0 }

/-- An instant in November 2023, in nanoseconds since the epoch. -/
def sampleNow : Int := 1700000000000000000

/-- Worker of `canonicalMIMEHeaderKey`: `upper` tells whether the next letter
starts a word. -/
def canonicalMIMEHeaderKeyAux (upper : Bool) : GoString → GoString
  | [] => []
  | c :: cs =>
    (if upper then c.toUpper else c.toLower) :: canonicalMIMEHeaderKeyAux (c == '-') cs

/-- `textproto.CanonicalMIMEHeaderKey` on keys made of token characters: the
first letter and every letter after a hyphen in upper case, the rest in lower
case. -/
def canonicalMIMEHeaderKey (key : GoString) : GoString :=
  canonicalMIMEHeaderKeyAux true key

/-- An environment whose origin server answers every request with status 200,
one header and the two-byte body `hi`, and where every dial succeeds. -/
def sampleEnv : Env :=
  { canonicalKey := canonicalMIMEHeaderKey, toLowerTable := id,
    clientDo := fun _ =>
      some { StatusCode := 200,
             Header := [("Content-Type".toList, ["text/plain".toList])],
             body := [104, 105] },
    dial := fun _ => none }

/-- As `sampleEnv`, with an origin server whose status line carries the code
`042`. -/
def sampleEnv42 : Env :=
  { canonicalKey := canonicalMIMEHeaderKey, toLowerTable := id,
    clientDo := fun _ =>
      some { StatusCode := 42,
             Header := [("Content-Type".toList, ["text/plain".toList])],
             body := [104, 105] },
    dial := fun _ => none }

/-- A plain-HTTP request for `sampleURI` with the given method. -/
def sampleRequest (method : GoString) : Request :=
  { Method := method, RequestURI := sampleURI, Host := "www.example.com".toList,
    URL := sampleURI }

/-- A CONNECT request for `www.example.com:443`. -/
def sampleConnect : Request :=
  { Method := MethodConnect, RequestURI := "www.example.com:443".toList,
    Host := "www.example.com:443".toList, URL := [] }

/-- The state after `setup` with the blacklist entry `key ↦ true` added. -/
def sampleBlocking (key : GoString) : State :=
  { setup with blacklist := Function.update setup.blacklist key (some true) }

/-- Number of upstream calls (`client.Do`) recorded in a trace. -/
def upstreamCalls (trace : List Event) : Nat :=
  (trace.filter (fun e => match e with | .clientDo _ => true | _ => false)).length

/-- Number of relay tasks (`go copyHeaders`) recorded in a trace. -/
def relaysStarted (trace : List Event) : Nat :=
  (trace.filter (fun e => match e with | .relay _ => true | _ => false)).length

/-- What the client and the outside world see of a handled request. -/
structure Observed where
  status : Option Int
  header : List (GoString × GoString)
  body : Bytes
  upstreamCalls : Nat
  relaysStarted : Nat
  deriving DecidableEq, Repr

/-- The observable part of a handler's result. -/
def observe (r : ResponseWriter × State) : Observed :=
  { status := r.1.status, header := r.1.wireHeader, body := r.1.body,
    upstreamCalls := upstreamCalls r.2.trace, relaysStarted := relaysStarted r.2.trace }

/-- The failure a computation ended with, if any. -/
def failureOf {α : Type} (r : Except Failure α) : Option Failure :=
  match r with
  | .ok _ => none
  | .error e => some e

/-! # Theorems -/

/-! ## stripSubDomains -/

theorem Split_eq_cons (s : GoString) (sep : Char) :
    ∃ ps, Split s sep = s.takeWhile (fun c => c ≠ sep) :: ps := by
  induction s with
  | nil => exact ⟨[], rfl⟩
  | cons c cs ih =>
    obtain ⟨ps, hps⟩ := ih
    by_cases h : c = sep
    · exact ⟨Split cs sep, by simp [Split, h]⟩
    · exact ⟨ps, by simp [Split, h, hps]⟩

theorem index_Split_zero (s : GoString) :
    index (Split s ':') 0 = .ok (hostPart s) := by
  obtain ⟨ps, hps⟩ := Split_eq_cons s ':'
  simp [index, hps, hostPart]

theorem length_findAllDots (h : GoString) (i : Nat) :
    (findAllDots h i).length = h.count '.' := by
  induction h generalizing i with
  | nil => rfl
  | cons c cs ih =>
    by_cases hc : c = '.'
    · subst hc
      simp [findAllDots, ih]
    · have hc2 : ('.' == c) = false := by
        simp only [beq_eq_false_iff_ne, ne_eq]
        exact fun e => hc e.symm
      simp [findAllDots, hc, ih, List.count_cons, hc2]

/-- The entry of the match list the code slices at is the end of the
second-to-last dot, and slicing there gives `afterSecondToLastDot`. -/
theorem findAllDots_secondToLast (h : GoString) (i : Nat)
    (h2 : 2 ≤ (findAllDots h i).length) :
    ∃ m, (findAllDots h i).get? ((findAllDots h i).length - 2) = some m ∧
      i < m.2 ∧ m.2 ≤ i + h.length ∧
      h.drop (m.2 - i) = afterSecondToLastDot h := by
  induction h generalizing i with
  | nil => simp [findAllDots] at h2
  | cons c cs ih =>
    by_cases hc : c = '.'
    · subst hc
      have hd : findAllDots ('.' :: cs) i = (i, i + 1) :: findAllDots cs (i + 1) := by
        simp [findAllDots]
      rw [hd] at h2 ⊢
      have hlen := length_findAllDots cs (i + 1)
      by_cases h1 : (findAllDots cs (i + 1)).length = 1
      · refine ⟨(i, i + 1), ?_, by simp, ?_, ?_⟩
        · simp [h1]
        · simp only [List.length_cons]
          omega
        · have hcnt : cs.count '.' = 1 := by omega
          simp [afterSecondToLastDot, hcnt]
      · have h2' : 2 ≤ (findAllDots cs (i + 1)).length := by
          simp only [List.length_cons] at h2
          omega
        obtain ⟨m, hm, hlt, hle, hdrop⟩ := ih (i + 1) h2'
        refine ⟨m, ?_, by omega, ?_, ?_⟩
        · have e : ((i, i + 1) :: findAllDots cs (i + 1)).length - 2
              = ((findAllDots cs (i + 1)).length - 2) + 1 := by
            simp only [List.length_cons]
            omega
          rw [e, List.get?_cons_succ]
          exact hm
        · simp only [List.length_cons]
          omega
        · have hcnt : cs.count '.' ≠ 1 := by omega
          have e : m.2 - i = (m.2 - (i + 1)) + 1 := by omega
          rw [e, List.drop_succ_cons, hdrop]
          simp [afterSecondToLastDot, hcnt]
    · have hd : findAllDots (c :: cs) i = findAllDots cs (i + 1) := by
        simp [findAllDots, hc]
      rw [hd] at h2 ⊢
      obtain ⟨m, hm, hlt, hle, hdrop⟩ := ih (i + 1) h2
      refine ⟨m, hm, by omega, by simp only [List.length_cons]; omega, ?_⟩
      have e : m.2 - i = (m.2 - (i + 1)) + 1 := by omega
      rw [e, List.drop_succ_cons, hdrop]
      simp [afterSecondToLastDot, hc]

/-- The suffix after the second-to-last dot follows a dot of `h` and holds
exactly one dot. -/
theorem afterSecondToLastDot_spec (h : GoString) (h2 : 2 ≤ h.count '.') :
    ∃ p, h = p ++ '.' :: afterSecondToLastDot h ∧
      (afterSecondToLastDot h).count '.' = 1 := by
  induction h with
  | nil => simp at h2
  | cons c cs ih =>
    by_cases hc : c = '.' ∧ cs.count '.' = 1
    · obtain ⟨hc1, hc2⟩ := hc
      subst hc1
      exact ⟨[], by simp [afterSecondToLastDot, hc2]⟩
    · have h2' : 2 ≤ cs.count '.' := by
        by_cases hd : c = '.'
        · subst hd
          have : cs.count '.' ≠ 1 := fun e => hc ⟨rfl, e⟩
          simp only [List.count_cons_self] at h2
          omega
        · have hc2 : ('.' == c) = false := by
            simp only [beq_eq_false_iff_ne, ne_eq]
            exact fun e => hd e.symm
          simpa [List.count_cons, hd] using h2
      obtain ⟨p, hp, hcount⟩ := ih h2'
      have e : afterSecondToLastDot (c :: cs) = afterSecondToLastDot cs := by
        simp only [afterSecondToLastDot, hc, if_false]
      refine ⟨c :: p, ?_, ?_⟩
      · rw [e, List.cons_append, ← hp]
      · rw [e]; exact hcount

/-- The code computes the reference rule and never panics. -/
theorem stripSubDomains_eq_ref (s : GoString) :
    stripSubDomains s = .ok (stripSubDomainsRef s) := by
  unfold stripSubDomains stripSubDomainsRef
  rw [index_Split_zero]
  simp only [Except.bind, bind, FindAllStringIndex, pure, Except.pure, gt_iff_lt]
  have hlen := length_findAllDots (hostPart s) 0
  by_cases h2 : 2 ≤ (hostPart s).count '.'
  · have h2' : 2 ≤ (findAllDots (hostPart s) 0).length := by omega
    obtain ⟨m, hm, _, hle, hdrop⟩ := findAllDots_secondToLast (hostPart s) 0 h2'
    obtain ⟨p, _, hcount⟩ := afterSecondToLastDot_spec (hostPart s) h2
    have hne : afterSecondToLastDot (hostPart s) ≠ [] := by
      intro e
      rw [e] at hcount
      simp at hcount
    have h1 : 1 < (findAllDots (hostPart s) 0).length := by omega
    simp only [Nat.sub_zero] at hdrop
    have hidx : index (findAllDots (hostPart s) 0)
        ((findAllDots (hostPart s) 0).length - 2) = .ok m := by
      unfold index
      rw [hm]
    have hsl : sliceFrom (hostPart s) m.2 = .ok (afterSecondToLastDot (hostPart s)) := by
      unfold sliceFrom
      rw [if_pos (by omega), hdrop]
    rw [if_pos h1, if_pos h2, hidx]
    simp only [hsl, if_neg hne]
  · have h1 : ¬ 1 < (findAllDots (hostPart s) 0).length := by omega
    simp [h1, h2]


/-! ## storage.go -/

theorem wrapInt64_of_range (n : Int) (hlo : minInt64 ≤ n) (hhi : n ≤ maxInt64) :
    wrapInt64 n = n := by
  unfold minInt64 at hlo
  unfold maxInt64 at hhi
  unfold wrapInt64
  omega

theorem Store_items_self (s : Storage) (k : GoString) (r : Response) (ttl t0 : Int) :
    (s.Store k r ttl t0).items k
      = some { Content := r, Expiration := UnixNano (t0 + ttl) } := by
  simp [Storage.Store]

theorem Store_items_of_ne (s : Storage) (k k' : GoString) (r : Response)
    (ttl t0 : Int) (h : k' ≠ k) : (s.Store k r ttl t0).items k' = s.items k' := by
  simp [Storage.Store, Function.update_noteq h]

theorem Get_items_of_ne (s : Storage) (k k' : GoString) (t : Int) (h : k' ≠ k) :
    (s.Get k t).2.items k' = s.items k' := by
  unfold Storage.Get
  cases hk : s.items k with
  | none => simp [Item.zero, Item.Expired]
  | some it =>
    by_cases he : it.Expired t = true
    · simp [he, Function.update_noteq h]
    · simp [he]

/-- A `Get` of a present entry that has not expired returns its content and
leaves the store as it is. -/
theorem Get_of_fresh (s : Storage) (k : GoString) (t : Int) (it : Item)
    (hk : s.items k = some it) (hf : it.Expired t = false) :
    s.Get k t = ((it.Content, true), s) := by
  simp [Storage.Get, hk, hf]

/-- A `Get` of a present entry that has expired evicts it. -/
theorem Get_of_expired (s : Storage) (k : GoString) (t : Int) (it : Item)
    (hk : s.items k = some it) (hf : it.Expired t = true) :
    s.Get k t = ((Response.zero, false), { items := Function.update s.items k none }) := by
  simp [Storage.Get, hk, hf]

theorem Get_of_absent (s : Storage) (k : GoString) (t : Int) (hk : s.items k = none) :
    s.Get k t = ((Response.zero, false), s) := by
  simp [Storage.Get, hk, Item.zero, Item.Expired]

/-- A `Get` that reports found did not touch the store. -/
theorem Get_found_unchanged (s : Storage) (k : GoString) (t : Int)
    (h : (s.Get k t).1.2 = true) : (s.Get k t).2 = s := by
  cases hk : s.items k with
  | none => rw [Get_of_absent s k t hk]
  | some it =>
    by_cases he : it.Expired t = true
    · rw [Get_of_expired s k t it hk he] at h
      simp at h
    · have he' : it.Expired t = false := by simpa using he
      rw [Get_of_fresh s k t it hk he']

theorem run_items_of_ne (s : Storage) (op : CacheOp) (k : GoString)
    (h : op.key ≠ k) : (op.run s).items k = s.items k := by
  cases op with
  | get k' now => exact Get_items_of_ne s k' k now (fun e => h e.symm)
  | store k' c d now => exact Store_items_of_ne s k' k c d now (fun e => h e.symm)

theorem runOps_items_of_ne (ops : List CacheOp) (s : Storage) (k : GoString)
    (h : ∀ op ∈ ops, op.key ≠ k) : (runOps s ops).items k = s.items k := by
  induction ops generalizing s with
  | nil => rfl
  | cons op ops ih =>
    have h1 : op.key ≠ k := h op (List.mem_cons_self _ _)
    have h2 : ∀ o ∈ ops, o.key ≠ k := fun o ho => h o (List.mem_cons_of_mem _ ho)
    show (runOps (op.run s) ops).items k = s.items k
    rw [ih (op.run s) h2, run_items_of_ne s op k h1]

/-- An entry whose expiry is a representable instant `e` is fresh at every
representable instant up to `e`. -/
theorem Expired_false_of_le (c : Response) (e t : Int)
    (hlo : minInt64 ≤ t) (hte : t ≤ e) (hhi : e ≤ maxInt64) :
    Item.Expired { Content := c, Expiration := UnixNano e } t = false := by
  have h1 : UnixNano e = e := wrapInt64_of_range e (le_trans hlo hte) hhi
  have h2 : UnixNano t = t := wrapInt64_of_range t hlo (le_trans hte hhi)
  unfold Item.Expired
  simp only [h1, h2]
  by_cases h0 : e = 0
  · simp [h0]
  · simp only [h0, if_false, decide_eq_false_iff_not, not_lt]
    exact hte

/-- An entry whose expiry is a representable non-zero instant `e` is expired at
every later representable instant. -/
theorem Expired_true_of_gt (c : Response) (e t : Int)
    (hlo : minInt64 ≤ e) (het : e < t) (hhi : t ≤ maxInt64) (h0 : e ≠ 0) :
    Item.Expired { Content := c, Expiration := UnixNano e } t = true := by
  have h1 : UnixNano e = e := wrapInt64_of_range e hlo (le_trans (le_of_lt het) hhi)
  have h2 : UnixNano t = t := wrapInt64_of_range t (le_trans hlo (le_of_lt het)) hhi
  unfold Item.Expired
  simp only [h1, h2, h0, if_false, decide_eq_true_eq]
  exact het


/-- C3 fails as stated: at an instant in 2023, storing with the largest
`time.Duration` makes the `int64` expiry wrap to a negative number, and a `Get`
at the very same instant finds the entry expired. -/
theorem store_get_overflow_counterexample :
    sampleNow ≤ sampleNow ∧ sampleNow ≤ sampleNow + maxInt64 ∧
    ((NewStorage.Store sampleURI sampleResponse maxInt64 sampleNow).Get
        sampleURI sampleNow).1 = (Response.zero, false) := by
  decide

/-- C3 (amended): provided the instants `t1` and `t0 + ttl` are representable as
`int64` nanoseconds, after `Store(k, r, ttl)` at `t0` the entry of `k` has content
`r` and expiry `t0 + ttl` whatever was stored before, and a `Get(k)` at any `t1`
up to `t0 + ttl` (so at any `t1` with `t0 ≤ t1 ≤ t0 + ttl`), with only operations
on other keys in between, returns `(r, true)` and leaves the store unchanged. -/
theorem store_then_get_fresh (s : Storage) (k : GoString) (r : Response)
    (ttl t0 t1 : Int) (ops : List CacheOp) (hops : ∀ op ∈ ops, op.key ≠ k)
    (h1e : t1 ≤ t0 + ttl)
    (hlo : minInt64 ≤ t1) (hhi : t0 + ttl ≤ maxInt64) :
    (s.Store k r ttl t0).items k = some { Content := r, Expiration := t0 + ttl } ∧
    ((runOps (s.Store k r ttl t0) ops).Get k t1).1 = (r, true) ∧
    ((runOps (s.Store k r ttl t0) ops).Get k t1).2 = runOps (s.Store k r ttl t0) ops := by
  have hexp : UnixNano (t0 + ttl) = t0 + ttl :=
    wrapInt64_of_range (t0 + ttl) (le_trans hlo h1e) hhi
  have hk : (runOps (s.Store k r ttl t0) ops).items k
      = some { Content := r, Expiration := UnixNano (t0 + ttl) } := by
    rw [runOps_items_of_ne ops _ k hops, Store_items_self]
  have hf := Expired_false_of_le r (t0 + ttl) t1 hlo h1e hhi
  have hget := Get_of_fresh _ k t1 _ hk hf
  refine ⟨?_, ?_, ?_⟩
  · rw [Store_items_self, hexp]
  · rw [hget]
  · rw [hget]

/-- Instance of `store_then_get_fresh`: a ten-second entry read five seconds
later, after an unrelated key was stored. -/
theorem store_then_get_fresh_witness :
    ((runOps (NewStorage.Store sampleURI sampleResponse cacheDuration sampleNow)
        [CacheOp.store "other".toList Response.zero cacheDuration sampleNow]).Get
        sampleURI (sampleNow + 5000000000)).1 = (sampleResponse, true) :=
  (store_then_get_fresh NewStorage sampleURI sampleResponse cacheDuration sampleNow
    (sampleNow + 5000000000)
    [CacheOp.store "other".toList Response.zero cacheDuration sampleNow]
    (by decide) (by decide) (by decide) (by decide)).2.1

/-- C4 fails as stated: a `Store` whose `ttl` is `-t0` sets `Expiration` to 0,
which `Item.Expired` reads as "never expires"; a `Get` after `t0 + ttl` still
finds the entry. -/
theorem get_after_expiry_zero_counterexample :
    sampleNow + 1 > sampleNow + (-sampleNow) ∧
    ((NewStorage.Store sampleURI sampleResponse (-sampleNow) sampleNow).Get
        sampleURI (sampleNow + 1)).1 = (sampleResponse, true) := by
  decide

/-- C4 (amended): provided `t0 + ttl` is not 0 (an `Expiration` of 0 never
expires) and the instants `t0 + ttl` and `t1` are representable as `int64`
nanoseconds, a `Get(k)` at any `t1 > t0 + ttl` after `Store(k, r, ttl)` at `t0`,
with only operations on other keys in between, returns not-found and removes `k`
from the items map, leaving every other key unchanged.  A `Get` of an absent key
returns not-found, and a `Get` that returns found leaves the map unchanged. -/
theorem get_after_expiry_evicts (s : Storage) (k : GoString) (r : Response)
    (ttl t0 t1 : Int) (ops : List CacheOp) (hops : ∀ op ∈ ops, op.key ≠ k)
    (hgt : t1 > t0 + ttl) (h0 : t0 + ttl ≠ 0)
    (hlo : minInt64 ≤ t0 + ttl) (hhi : t1 ≤ maxInt64) :
    ((runOps (s.Store k r ttl t0) ops).Get k t1).1.2 = false ∧
    ((runOps (s.Store k r ttl t0) ops).Get k t1).2.items k = none ∧
    (∀ k', k' ≠ k →
      ((runOps (s.Store k r ttl t0) ops).Get k t1).2.items k'
        = (runOps (s.Store k r ttl t0) ops).items k') ∧
    (∀ (s' : Storage) (k' : GoString) (t : Int), s'.items k' = none →
      (s'.Get k' t).1.2 = false ∧ (s'.Get k' t).2 = s') ∧
    (∀ (s' : Storage) (k' : GoString) (t : Int), (s'.Get k' t).1.2 = true →
      (s'.Get k' t).2 = s') := by
  have hk : (runOps (s.Store k r ttl t0) ops).items k
      = some { Content := r, Expiration := UnixNano (t0 + ttl) } := by
    rw [runOps_items_of_ne ops _ k hops, Store_items_self]
  have hx := Expired_true_of_gt r (t0 + ttl) t1 hlo hgt hhi h0
  have hget := Get_of_expired _ k t1 _ hk hx
  refine ⟨?_, ?_, ?_, ?_, ?_⟩
  · rw [hget]
  · rw [hget]; simp
  · intro k' hne
    exact Get_items_of_ne _ k k' t1 hne
  · intro s' k' t hnone
    rw [Get_of_absent s' k' t hnone]
    exact ⟨rfl, rfl⟩
  · intro s' k' t hfound
    exact Get_found_unchanged s' k' t hfound

/-- Instance of `get_after_expiry_evicts`: a ten-second entry read eleven
seconds later is reported absent and is gone from the map. -/
theorem get_after_expiry_evicts_witness :
    ((NewStorage.Store sampleURI sampleResponse cacheDuration sampleNow).Get
        sampleURI (sampleNow + 11000000000)).1.2 = false ∧
    ((NewStorage.Store sampleURI sampleResponse cacheDuration sampleNow).Get
        sampleURI (sampleNow + 11000000000)).2.items sampleURI = none :=
  have h := get_after_expiry_evicts NewStorage sampleURI sampleResponse cacheDuration
    sampleNow (sampleNow + 11000000000) [] (by simp) (by decide) (by decide)
    (by decide) (by decide)
  ⟨h.1, h.2.1⟩


/-! ## proxy.go: handleHTTP -/

theorem foldl_HeaderAdd (env : Env) (k : GoString) (vs : List GoString)
    (w : ResponseWriter) :
    vs.foldl (fun w vv => w.HeaderAdd env k vv) w
      = { w with header := w.header ++ vs.map (fun v => (env.canonicalKey k, v)) } := by
  induction vs generalizing w with
  | nil => simp
  | cons v vs ih =>
    rw [List.foldl_cons, ih]
    simp [ResponseWriter.HeaderAdd]

theorem foldl_copyHeader (env : Env) (h : Header) (w : ResponseWriter) :
    h.foldl (fun w kv => kv.2.foldl (fun w vv => w.HeaderAdd env kv.1 vv) w) w
      = { w with header := w.header ++ headerEntries env h } := by
  induction h generalizing w with
  | nil => simp [headerEntries]
  | cons kv h ih =>
    rw [List.foldl_cons, ih, foldl_HeaderAdd]
    simp [headerEntries]

/-! ### The response writer -/

theorem checkWriteHeaderCode_ok (code : Int) (h1 : 100 ≤ code) (h2 : code ≤ 999) :
    checkWriteHeaderCode code = .ok () := by
  unfold checkWriteHeaderCode
  rw [if_neg (by omega)]

theorem WriteHeader_of_unwritten (w : ResponseWriter) (code : Int)
    (hw : w.status = none) (h1 : 100 ≤ code) (h2 : code ≤ 999) :
    w.WriteHeader code
      = .ok { w with status := some code, wireHeader := w.header } := by
  unfold ResponseWriter.WriteHeader
  rw [hw]
  simp only [checkWriteHeaderCode_ok code h1 h2, bind, Except.bind, pure, Except.pure]

theorem WriteHeader_of_written (w : ResponseWriter) (code c : Int)
    (hw : w.status = some c) : w.WriteHeader code = .ok w := by
  unfold ResponseWriter.WriteHeader
  rw [hw]

/-- `WriteHeader` with an invalid code on an unwritten header panics. -/
theorem WriteHeader_invalid (w : ResponseWriter) (code : Int) (hw : w.status = none)
    (h : code < 100 ∨ code > 999) :
    w.WriteHeader code = .error Failure.invalidWriteHeaderCode := by
  unfold ResponseWriter.WriteHeader
  rw [hw]
  simp only [checkWriteHeaderCode, if_pos h, bind, Except.bind]

theorem Write_of_written (w : ResponseWriter) (data : Bytes) (c : Int)
    (hw : w.status = some c) :
    w.Write data = .ok { w with body := w.body ++ data } := by
  unfold ResponseWriter.Write
  simp only [WriteHeader_of_written w StatusOK c hw, bind, Except.bind, pure, Except.pure]

theorem Write_of_unwritten (w : ResponseWriter) (data : Bytes) (hw : w.status = none) :
    w.Write data
      = .ok { w with status := some StatusOK, wireHeader := w.header,
                     body := w.body ++ data } := by
  unfold ResponseWriter.Write
  rw [WriteHeader_of_unwritten w StatusOK hw (by decide) (by decide)]
  rfl

/-- `http.Error` with a valid code returns; it keeps the hijack capability and
a status that was already written. -/
theorem httpError_returns (env : Env) (w : ResponseWriter) (e : GoString) (code : Int)
    (h1 : 100 ≤ code) (h2 : code ≤ 999) :
    ∃ w', httpError env w e code = .ok w' ∧ w'.hijack = w.hijack ∧
      (∀ c, w.status = some c → w'.status = some c) ∧
      (w.status = none → w'.status = some code) := by
  unfold httpError
  cases hs : w.status with
  | none =>
    have hs' : ((w.HeaderSet env "Content-Type".toList
        "text/plain; charset=utf-8".toList).HeaderSet env
        "X-Content-Type-Options".toList "nosniff".toList).status = none := by
      simpa [ResponseWriter.HeaderSet] using hs
    simp only [bind, Except.bind, WriteHeader_of_unwritten _ code hs' h1 h2]
    rw [Write_of_written _ _ code rfl]
    exact ⟨_, rfl, rfl, fun c hc => by simp at hc, fun _ => rfl⟩
  | some c =>
    have hs' : ((w.HeaderSet env "Content-Type".toList
        "text/plain; charset=utf-8".toList).HeaderSet env
        "X-Content-Type-Options".toList "nosniff".toList).status = some c := by
      simpa [ResponseWriter.HeaderSet] using hs
    simp only [bind, Except.bind, WriteHeader_of_written _ code c hs']
    rw [Write_of_written _ _ c hs']
    refine ⟨_, rfl, rfl, fun c' hc => ?_, fun h => by simp at h⟩
    cases hc
    simpa [ResponseWriter.HeaderSet] using hs

/-! ### handleHTTP -/

/-- What lines 164-174 do on a writer whose header is still unwritten and a
response with a body stream and a status code that `WriteHeader` accepts. -/
theorem relayResponse_eq (env : Env) (w : ResponseWriter) (response : Response)
    (st : State) (h : Nat) (hw : w.status = none) (hb : response.Body = some h)
    (h1 : 100 ≤ response.StatusCode) (h2 : response.StatusCode ≤ 999) :
    relayResponse env w response st
      = .ok ({ header := w.header ++ headerEntries env response.Header,
               status := some response.StatusCode,
               wireHeader := w.header ++ headerEntries env response.Header,
               body := w.body ++ st.bodies h,
               hijack := w.hijack },
             { st with bodies := Function.update st.bodies h [] }) := by
  unfold relayResponse
  rw [foldl_copyHeader, hb]
  simp only [bind, Except.bind]
  rw [WriteHeader_of_unwritten _ _ (by simpa using hw) h1 h2]
  simp only [ReadAll]
  rw [Write_of_written _ _ response.StatusCode rfl]
  rfl

/-- With a status code that `WriteHeader` rejects, lines 164-174 panic on an
unwritten header. -/
theorem relayResponse_invalid (env : Env) (w : ResponseWriter) (response : Response)
    (st : State) (hw : w.status = none)
    (hc : response.StatusCode < 100 ∨ response.StatusCode > 999) :
    relayResponse env w response st = .error Failure.invalidWriteHeaderCode := by
  unfold relayResponse
  rw [foldl_copyHeader]
  simp only [bind, Except.bind]
  rw [WriteHeader_invalid _ _ (by simpa using hw) hc]

/-- Lines 148-160: what is stored when the upstream call returns. -/
theorem forwardAndStore_eq (env : Env) (tStore : Int) (request : Request) (st : State)
    (reply : Reply)
    (hdo : env.clientDo { request with RequestURI := [] } = some reply) :
    forwardAndStore env tStore request st
      = .ok ({ StatusCode := reply.StatusCode, Header := reply.Header,
               Body := some st.nextBody },
             { blacklist := st.blacklist,
               storage := st.storage.Store request.RequestURI
                 { StatusCode := reply.StatusCode, Header := reply.Header,
                   Body := some st.nextBody }
                 cacheDuration tStore,
               bodies := Function.update st.bodies st.nextBody reply.body,
               nextBody := st.nextBody + 1,
               trace := st.trace ++ [Event.clientDo { request with RequestURI := [] },
                 Event.storageStore request.RequestURI] }) := by
  unfold forwardAndStore
  simp only [clientDo, State.emit, hdo, bind, Except.bind, pure, Except.pure]
  simp

/-- The path of `handleHTTP` that forwards upstream (proxy.go 147-162): taken
when the cache reports not-found or the method is not GET. -/
theorem handleHTTP_forward (env : Env) (tGet tStore : Int) (w : ResponseWriter)
    (request : Request) (st : State) (reply : Reply) (hw : w.status = none)
    (hmiss : (st.storage.Get request.RequestURI tGet).1.2 = false
      ∨ request.Method ≠ MethodGet)
    (hdo : env.clientDo { request with RequestURI := [] } = some reply)
    (h1 : 100 ≤ reply.StatusCode) (h2 : reply.StatusCode ≤ 999) :
    handleHTTP env tGet tStore w request st
      = .ok ({ header := w.header ++ headerEntries env reply.Header,
               status := some reply.StatusCode,
               wireHeader := w.header ++ headerEntries env reply.Header,
               body := w.body ++ reply.body,
               hijack := w.hijack },
             { blacklist := st.blacklist,
               storage := (st.storage.Get request.RequestURI tGet).2.Store
                 request.RequestURI
                 { StatusCode := reply.StatusCode, Header := reply.Header,
                   Body := some st.nextBody }
                 cacheDuration tStore,
               bodies := Function.update st.bodies st.nextBody [],
               nextBody := st.nextBody + 1,
               trace := st.trace ++ [Event.storageGet request.RequestURI,
                 Event.clientDo { request with RequestURI := [] },
                 Event.storageStore request.RequestURI,
                 Event.closeRequestBody] }) := by
  have hcond : ¬ ((st.storage.Get request.RequestURI tGet).1.2 = true
      ∧ request.Method = MethodGet) := by
    rintro ⟨h1, h2⟩
    rcases hmiss with h | h
    · rw [h] at h1; exact Bool.noConfusion h1
    · exact h h2
  unfold handleHTTP
  simp only [State.emit, bind, Except.bind, pure, Except.pure]
  rw [if_neg hcond, forwardAndStore_eq env tStore request _ reply hdo]
  simp only []
  rw [relayResponse_eq env w _ _ st.nextBody hw rfl h1 h2]
  simp

/-- The path of `handleHTTP` that serves from the cache (proxy.go 143-146): taken
when the cache reports found and the method is GET. -/
theorem handleHTTP_cached (env : Env) (tGet tStore : Int) (w : ResponseWriter)
    (request : Request) (st : State) (response : Response) (h : Nat)
    (hw : w.status = none)
    (hhit : (st.storage.Get request.RequestURI tGet).1 = (response, true))
    (hm : request.Method = MethodGet) (hb : response.Body = some h)
    (h1 : 100 ≤ response.StatusCode) (h2 : response.StatusCode ≤ 999) :
    handleHTTP env tGet tStore w request st
      = .ok ({ header := w.header ++ [(env.canonicalKey "cached".toList, "1".toList)]
                 ++ headerEntries env response.Header,
               status := some response.StatusCode,
               wireHeader := w.header ++ [(env.canonicalKey "cached".toList, "1".toList)]
                 ++ headerEntries env response.Header,
               body := w.body ++ st.bodies h,
               hijack := w.hijack },
             { blacklist := st.blacklist,
               storage := (st.storage.Get request.RequestURI tGet).2,
               bodies := Function.update st.bodies h [],
               nextBody := st.nextBody,
               trace := st.trace ++ [Event.storageGet request.RequestURI,
                 Event.closeRequestBody] }) := by
  have e1 : (st.storage.Get request.RequestURI tGet).1.1 = response := by rw [hhit]
  have e2 : (st.storage.Get request.RequestURI tGet).1.2 = true := by rw [hhit]
  have hcond : (st.storage.Get request.RequestURI tGet).1.2 = true
      ∧ request.Method = MethodGet := ⟨e2, hm⟩
  unfold handleHTTP
  simp only [State.emit, bind, Except.bind, pure, Except.pure]
  rw [if_pos hcond, e1]
  rw [relayResponse_eq env _ response _ h (by simpa [ResponseWriter.HeaderAdd] using hw) hb
    h1 h2]
  simp [ResponseWriter.HeaderAdd]

/-- The cached path panics when the stored status code is one that
`WriteHeader` rejects. -/
theorem handleHTTP_cached_invalid (env : Env) (tGet tStore : Int) (w : ResponseWriter)
    (request : Request) (st : State) (response : Response)
    (hw : w.status = none)
    (hhit : (st.storage.Get request.RequestURI tGet).1 = (response, true))
    (hm : request.Method = MethodGet)
    (hc : response.StatusCode < 100 ∨ response.StatusCode > 999) :
    handleHTTP env tGet tStore w request st = .error Failure.invalidWriteHeaderCode := by
  have e1 : (st.storage.Get request.RequestURI tGet).1.1 = response := by rw [hhit]
  have e2 : (st.storage.Get request.RequestURI tGet).1.2 = true := by rw [hhit]
  have hcond : (st.storage.Get request.RequestURI tGet).1.2 = true
      ∧ request.Method = MethodGet := ⟨e2, hm⟩
  unfold handleHTTP
  simp only [State.emit, bind, Except.bind, pure, Except.pure]
  rw [if_pos hcond, e1]
  rw [relayResponse_invalid env _ response _ (by simpa [ResponseWriter.HeaderAdd] using hw) hc]

/-- After the forwarding path stored the response of `first` under its
`RequestURI`, a GET of the same `RequestURI` up to ten seconds after the store
is served from that entry: no upstream call, the stored status and headers plus
the marker, and as body what is left on the stored body stream, which is
nothing. -/
theorem handleHTTP_forward_then_get (env : Env) (tGet1 tStore1 tGet2 tStore2 : Int)
    (w1 : ResponseWriter) (hj2 : Hijack) (first get : Request) (st : State)
    (reply : Reply) (hw : w1.status = none)
    (hmiss : (st.storage.Get first.RequestURI tGet1).1.2 = false
      ∨ first.Method ≠ MethodGet)
    (hdo : env.clientDo { first with RequestURI := [] } = some reply)
    (h1 : 100 ≤ reply.StatusCode) (h2 : reply.StatusCode ≤ 999)
    (huri : get.RequestURI = first.RequestURI) (hm : get.Method = MethodGet)
    (hlo : minInt64 ≤ tGet2) (hle : tGet2 ≤ tStore1 + cacheDuration)
    (hhi : tStore1 + cacheDuration ≤ maxInt64) :
    ∃ wa st1, handleHTTP env tGet1 tStore1 w1 first st = .ok (wa, st1) ∧
      (st1.storage.Get first.RequestURI tGet2).1
        = ({ StatusCode := reply.StatusCode, Header := reply.Header,
             Body := some st.nextBody }, true) ∧
      handleHTTP env tGet2 tStore2 (ResponseWriter.new hj2) get st1
        = .ok ({ header := (env.canonicalKey "cached".toList, "1".toList)
                   :: headerEntries env reply.Header,
                 status := some reply.StatusCode,
                 wireHeader := (env.canonicalKey "cached".toList, "1".toList)
                   :: headerEntries env reply.Header,
                 body := [],
                 hijack := hj2 },
               { st1 with trace := st1.trace ++ [Event.storageGet first.RequestURI,
                   Event.closeRequestBody] }) := by
  refine ⟨_, _, handleHTTP_forward env tGet1 tStore1 w1 first st reply hw hmiss hdo h1 h2,
    ?_⟩
  have hget := Get_of_fresh
    ((st.storage.Get first.RequestURI tGet1).2.Store first.RequestURI
      { StatusCode := reply.StatusCode, Header := reply.Header, Body := some st.nextBody }
      cacheDuration tStore1)
    first.RequestURI tGet2 _ (Store_items_self _ _ _ _ _)
    (Expired_false_of_le _ (tStore1 + cacheDuration) tGet2 hlo hle hhi)
  refine ⟨by rw [hget], ?_⟩
  rw [handleHTTP_cached env tGet2 tStore2 (ResponseWriter.new hj2) get _
    { StatusCode := reply.StatusCode, Header := reply.Header, Body := some st.nextBody }
    st.nextBody rfl (by rw [huri]; simp only [hget]) hm rfl h1 h2]
  simp [ResponseWriter.new, huri, hget]

/-- On the forwarding path `handleHTTP` is lines 148-160 followed by the relay
of lines 164-174: the store happens whatever the relay then does. -/
theorem handleHTTP_forward_stores (env : Env) (tGet tStore : Int) (w : ResponseWriter)
    (request : Request) (st : State) (reply : Reply)
    (hmiss : (st.storage.Get request.RequestURI tGet).1.2 = false
      ∨ request.Method ≠ MethodGet)
    (hdo : env.clientDo { request with RequestURI := [] } = some reply) :
    ∃ st', forwardAndStore env tStore request
          { st with trace := st.trace ++ [Event.storageGet request.RequestURI],
                    storage := (st.storage.Get request.RequestURI tGet).2 }
        = .ok ({ StatusCode := reply.StatusCode, Header := reply.Header,
                 Body := some st.nextBody }, st') ∧
      st'.storage.items request.RequestURI
        = some { Content := { StatusCode := reply.StatusCode, Header := reply.Header,
                              Body := some st.nextBody },
                 Expiration := UnixNano (tStore + cacheDuration) } ∧
      handleHTTP env tGet tStore w request st
        = (relayResponse env w
            { StatusCode := reply.StatusCode, Header := reply.Header,
              Body := some st.nextBody } st').map
            (fun r => (r.1, r.2.emit Event.closeRequestBody)) := by
  have hcond : ¬ ((st.storage.Get request.RequestURI tGet).1.2 = true
      ∧ request.Method = MethodGet) := by
    rintro ⟨h1, h2⟩
    rcases hmiss with h | h
    · rw [h] at h1; exact Bool.noConfusion h1
    · exact h h2
  refine ⟨_, forwardAndStore_eq env tStore request _ reply hdo, ?_, ?_⟩
  · exact Store_items_self _ _ _ _ _
  · unfold handleHTTP
    simp only [State.emit, bind, Except.bind, pure, Except.pure]
    rw [if_neg hcond, forwardAndStore_eq env tStore request _ reply hdo]
    simp only []
    cases relayResponse env w
      { StatusCode := reply.StatusCode, Header := reply.Header, Body := some st.nextBody }
      _ with
    | error e => rfl
    | ok r => rfl

/-! ## proxy.go: handleHTTPS -/

/-- `handleHTTPS` always returns. -/
theorem handleHTTPS_returns (env : Env) (w : ResponseWriter) (request : Request)
    (st : State) : ∃ r, handleHTTPS env w request st = .ok r := by
  unfold handleHTTPS
  simp only [bind, Except.bind, pure, Except.pure]
  cases hd : env.dial request.Host with
  | some err =>
    obtain ⟨w', hw', _⟩ := httpError_returns env w err StatusServiceUnavailable
      (by decide) (by decide)
    simp only [hw']
    exact ⟨_, rfl⟩
  | none =>
    have hwh : ∃ w1, w.WriteHeader StatusOK = .ok w1 := by
      cases hs : w.status with
      | none => exact ⟨_, WriteHeader_of_unwritten w StatusOK hs (by decide) (by decide)⟩
      | some c => exact ⟨_, WriteHeader_of_written w StatusOK c hs⟩
    obtain ⟨w1, hw1⟩ := hwh
    simp only [hw1]
    cases hh : w1.hijack with
    | unsupported =>
      obtain ⟨w', hw', _⟩ := httpError_returns env w1 "Hijacking not supported".toList
        StatusInternalServerError (by decide) (by decide)
      simp only [hw']
      exact ⟨_, rfl⟩
    | fails e =>
      obtain ⟨w', hw', _⟩ := httpError_returns env w1 e StatusServiceUnavailable
        (by decide) (by decide)
      simp only [hw']
      exact ⟨_, rfl⟩
    | succeeds => exact ⟨_, rfl⟩

/-- With a successful dial and a writer that is not a hijacker, `handleHTTPS`
has already written status 200 when it reaches `http.Error`, whose 500 is
ignored; no relay is started. -/
theorem handleHTTPS_unsupported (env : Env) (w : ResponseWriter) (request : Request)
    (st : State) (hw : w.status = none) (hd : env.dial request.Host = none)
    (hh : w.hijack = Hijack.unsupported) :
    ∃ w', handleHTTPS env w request st = .ok (w', st.emit (Event.dial request.Host)) ∧
      w'.status = some StatusOK := by
  obtain ⟨w', hw', _, hst, _⟩ := httpError_returns env
    { w with status := some StatusOK, wireHeader := w.header }
    "Hijacking not supported".toList StatusInternalServerError (by decide) (by decide)
  simp only [hh] at hw'
  refine ⟨w', ?_, hst StatusOK rfl⟩
  unfold handleHTTPS
  simp only [bind, Except.bind, pure, Except.pure, hd,
    WriteHeader_of_unwritten w StatusOK hw (by decide) (by decide), hh, hw']

/-! ## The handlers never read the blacklist -/

theorem relayResponse_blacklist (env : Env) (w : ResponseWriter) (response : Response)
    (st : State) (b : GoString → Option Bool) :
    relayResponse env w response { st with blacklist := b }
      = (relayResponse env w response st).map
          (fun r => (r.1, { r.2 with blacklist := b })) := by
  unfold relayResponse
  simp only [bind, Except.bind, pure, Except.pure]
  cases (List.foldl (fun w kv => List.foldl (fun w vv => w.HeaderAdd env kv.1 vv) w kv.2)
      w response.Header).WriteHeader response.StatusCode with
  | error e => rfl
  | ok w1 =>
    cases hb : response.Body with
    | none => rfl
    | some h =>
      simp only [ReadAll]
      cases w1.Write (st.bodies h) with
      | error e => rfl
      | ok w2 => rfl

theorem clientDo_blacklist (env : Env) (request : Request) (st : State)
    (b : GoString → Option Bool) :
    clientDo env request { st with blacklist := b }
      = (clientDo env request st).map (fun r => (r.1, { r.2 with blacklist := b })) := by
  unfold clientDo
  cases hd : env.clientDo request with
  | none => simp [Except.map]
  | some reply => simp [Except.map, State.emit]

theorem forwardAndStore_blacklist (env : Env) (tStore : Int) (request : Request)
    (st : State) (b : GoString → Option Bool) :
    forwardAndStore env tStore request { st with blacklist := b }
      = (forwardAndStore env tStore request st).map
          (fun r => (r.1, { r.2 with blacklist := b })) := by
  unfold forwardAndStore
  simp only [bind, Except.bind, pure, Except.pure]
  rw [clientDo_blacklist]
  cases clientDo env { request with RequestURI := [] } st with
  | error e => rfl
  | ok r => rfl

theorem handleHTTP_blacklist (env : Env) (tGet tStore : Int) (w : ResponseWriter)
    (request : Request) (st : State) (b : GoString → Option Bool) :
    handleHTTP env tGet tStore w request { st with blacklist := b }
      = (handleHTTP env tGet tStore w request st).map
          (fun r => (r.1, { r.2 with blacklist := b })) := by
  unfold handleHTTP
  simp only [State.emit, bind, Except.bind, pure, Except.pure]
  split_ifs with hc
  · have h := relayResponse_blacklist env
      (w.HeaderAdd env "cached".toList "1".toList)
      (st.storage.Get request.RequestURI tGet).1.1
      { st with trace := st.trace ++ [Event.storageGet request.RequestURI],
                storage := (st.storage.Get request.RequestURI tGet).2 } b
    simp only at h
    rw [h]
    cases relayResponse env (w.HeaderAdd env "cached".toList "1".toList)
      (st.storage.Get request.RequestURI tGet).1.1
      { st with trace := st.trace ++ [Event.storageGet request.RequestURI],
                storage := (st.storage.Get request.RequestURI tGet).2 } with
    | error e => rfl
    | ok r => rfl
  · have h := forwardAndStore_blacklist env tStore request
      { st with trace := st.trace ++ [Event.storageGet request.RequestURI],
                storage := (st.storage.Get request.RequestURI tGet).2 } b
    simp only at h
    rw [h]
    cases forwardAndStore env tStore request
      { st with trace := st.trace ++ [Event.storageGet request.RequestURI],
                storage := (st.storage.Get request.RequestURI tGet).2 } with
    | error e => rfl
    | ok r =>
      simp only [Except.map]
      have h2 := relayResponse_blacklist env w r.1 r.2 b
      rw [h2]
      cases relayResponse env w r.1 r.2 with
      | error e => rfl
      | ok r2 => rfl

theorem handleHTTPS_blacklist (env : Env) (w : ResponseWriter) (request : Request)
    (st : State) (b : GoString → Option Bool) :
    handleHTTPS env w request { st with blacklist := b }
      = (handleHTTPS env w request st).map
          (fun r => (r.1, { r.2 with blacklist := b })) := by
  unfold handleHTTPS
  simp only [bind, Except.bind, pure, Except.pure, State.emit]
  cases hd : env.dial request.Host with
  | some err =>
    simp only []
    cases httpError env w err StatusServiceUnavailable with
    | error e => rfl
    | ok w' => rfl
  | none =>
    simp only []
    cases w.WriteHeader StatusOK with
    | error e => rfl
    | ok w1 =>
      simp only []
      cases hh : w1.hijack with
      | unsupported =>
        simp only []
        cases httpError env w1 "Hijacking not supported".toList
          StatusInternalServerError with
        | error e => rfl
        | ok w' => rfl
      | fails e =>
        simp only []
        cases httpError env w1 e StatusServiceUnavailable with
        | error e => rfl
        | ok w' => rfl
      | succeeds => rfl

/-! ## proxy.go: connectionHandler -/

theorem connectionHandler_eq (env : Env) (tGet tStore : Int) (w : ResponseWriter)
    (request : Request) (st : State) (host : GoString)
    (hhost : requestURL request = .ok host) :
    connectionHandler env tGet tStore w request st
      = match st.blacklist (stripSubDomainsRef host) with
        | some true =>
          (w.WriteHeader StatusForbidden).map
            (fun w' => (w', st.emit Event.closeRequestBody))
        | _ =>
          if request.Method = MethodConnect then handleHTTPS env w request st
          else handleHTTP env tGet tStore w request st := by
  unfold connectionHandler
  rw [hhost]
  simp only [bind, Except.bind, stripSubDomains_eq_ref, pure, Except.pure]
  cases hb : st.blacklist (stripSubDomainsRef host) with
  | none => rfl
  | some v =>
    cases v with
    | false => rfl
    | true =>
      simp only []
      cases w.WriteHeader StatusForbidden with
      | error e => rfl
      | ok w' => rfl

theorem hostPart_no_colon (s : GoString) : ':' ∉ hostPart s := by
  intro h
  have := List.mem_takeWhile_imp h
  simp at this

theorem hostPart_of_no_colon (r : GoString) (h : ':' ∉ r) : hostPart r = r := by
  unfold hostPart
  rw [List.takeWhile_eq_self_iff]
  intro c hc
  simp only [ne_eq, decide_not, Bool.not_eq_eq_eq_not, Bool.not_true, decide_eq_false_iff_not]
  intro e
  exact h (e ▸ hc)

/-- The normalised host has no colon and at most one dot. -/
theorem stripSubDomainsRef_normal (s : GoString) :
    ':' ∉ stripSubDomainsRef s ∧ (stripSubDomainsRef s).count '.' ≤ 1 := by
  unfold stripSubDomainsRef
  by_cases h2 : 2 ≤ (hostPart s).count '.'
  · obtain ⟨p, hp, hcount⟩ := afterSecondToLastDot_spec (hostPart s) h2
    simp only [h2, if_true]
    refine ⟨?_, by omega⟩
    intro hmem
    apply hostPart_no_colon s
    rw [hp]
    simp [hmem]
  · simp only [h2, if_false]
    exact ⟨hostPart_no_colon s, by omega⟩

theorem stripSubDomainsRef_of_normal (r : GoString) (hc : ':' ∉ r)
    (hd : r.count '.' ≤ 1) : stripSubDomainsRef r = r := by
  unfold stripSubDomainsRef
  rw [hostPart_of_no_colon r hc]
  have : ¬ 2 ≤ r.count '.' := by omega
  simp [this]


/-! ## proxy.go: the console -/

theorem fieldsAux_append_word (word rest cur : GoString)
    (hw : ∀ c ∈ word, isSpace c = false) :
    fieldsAux (word ++ rest) cur = fieldsAux rest (cur ++ word) := by
  induction word generalizing cur with
  | nil => simp
  | cons c cs ih =>
    have hc : isSpace c = false := hw c (List.mem_cons_self _ _)
    have hcs : ∀ d ∈ cs, isSpace d = false := fun d hd => hw d (List.mem_cons_of_mem _ hd)
    rw [List.cons_append, fieldsAux]
    simp only [hc, Bool.false_eq_true, if_false]
    rw [ih (cur ++ [c]) hcs]
    simp

theorem fieldsAux_end (trail cur : GoString) (hcur : cur ≠ [])
    (ht : trail = [] ∨ trail = ['\n']) : fieldsAux trail cur = [cur] := by
  rcases ht with h | h
  · subst h
    simp [fieldsAux, hcur]
  · subst h
    have : isSpace '\n' = true := by decide
    simp [fieldsAux, hcur, this]

/-- The fields of `command ++ " " ++ arg ++ trail` are the command and the
argument, when both are non-empty and free of white space and `trail` is empty
or a newline. -/
theorem Fields_command_arg (command arg trail : GoString)
    (hc : ∀ c ∈ command, isSpace c = false) (hcne : command ≠ [])
    (ha : ∀ c ∈ arg, isSpace c = false) (hane : arg ≠ [])
    (ht : trail = [] ∨ trail = ['\n']) :
    Fields (command ++ ' ' :: (arg ++ trail)) = [command, arg] := by
  unfold Fields
  rw [fieldsAux_append_word command _ [] hc]
  have hsp : isSpace ' ' = true := by decide
  rw [List.nil_append, fieldsAux]
  simp only [hsp, if_true, hcne, if_false]
  rw [fieldsAux_append_word arg trail [] ha, List.nil_append, fieldsAux_end trail arg hane ht]

theorem ToLower_append (env : Env) (a b : GoString) :
    ToLower env (a ++ b) = ToLower env a ++ ToLower env b := by
  simp [ToLower]

theorem ToLower_trail (env : Env) (trail : GoString) (ht : trail = [] ∨ trail = ['\n']) :
    ToLower env trail = [] ∨ ToLower env trail = ['\n'] := by
  rcases ht with h | h
  · left; subst h; rfl
  · right; subst h; rfl

/-- What `parseCommand` does with `block <host>`. -/
theorem parseCommand_block (env : Env) (h trail : GoString) (st : State)
    (hne : ToLower env h ≠ []) (hsp : ∀ c ∈ ToLower env h, isSpace c = false)
    (ht : trail = [] ∨ trail = ['\n']) :
    parseCommand env ("block ".toList ++ h ++ trail) st
      = .ok { st with blacklist :=
                Function.update st.blacklist (ToLower env h) (some true) } := by
  have hin : ToLower env ("block ".toList ++ h ++ trail)
      = "block".toList ++ ' ' :: (ToLower env h ++ ToLower env trail) := by
    rw [ToLower_append, ToLower_append]
    rfl
  have hf := Fields_command_arg "block".toList (ToLower env h) (ToLower env trail)
    (by decide) (by decide) hsp hne (ToLower_trail env trail ht)
  unfold parseCommand
  simp only [hin, hf, index, bind, Except.bind, pure, Except.pure]
  rfl

/-- What `parseCommand` does with `unblock <host>`. -/
theorem parseCommand_unblock (env : Env) (h trail : GoString) (st : State)
    (hne : ToLower env h ≠ []) (hsp : ∀ c ∈ ToLower env h, isSpace c = false)
    (ht : trail = [] ∨ trail = ['\n']) :
    parseCommand env ("unblock ".toList ++ h ++ trail) st
      = .ok { st with blacklist :=
                Function.update st.blacklist (ToLower env h) (some false) } := by
  have hin : ToLower env ("unblock ".toList ++ h ++ trail)
      = "unblock".toList ++ ' ' :: (ToLower env h ++ ToLower env trail) := by
    rw [ToLower_append, ToLower_append]
    rfl
  have hf := Fields_command_arg "unblock".toList (ToLower env h) (ToLower env trail)
    (by decide) (by decide) hsp hne (ToLower_trail env trail ht)
  unfold parseCommand
  simp only [hin, hf, index, bind, Except.bind, pure, Except.pure]
  rfl

/-- No console command removes a blacklist key. -/
theorem parseCommand_keeps_keys (env : Env) (input : GoString) (st st' : State)
    (h : parseCommand env input st = .ok st') (k : GoString)
    (hk : (st.blacklist k).isSome = true) : (st'.blacklist k).isSome = true := by
  unfold parseCommand at h
  simp only [bind, Except.bind, pure, Except.pure] at h
  cases h0 : index (Fields (ToLower env input)) 0 with
  | error e => simp [h0] at h
  | ok c0 =>
    simp only [h0] at h
    split_ifs at h with hb hu hl hl2
    · cases h1 : index (Fields (ToLower env input)) 1 with
      | error e => simp [h1] at h
      | ok host =>
        simp only [h1, Except.ok.injEq] at h
        subst h
        by_cases hkk : k = host
        · subst hkk; simp
        · simp [Function.update_noteq hkk, hk]
    · cases h1 : index (Fields (ToLower env input)) 1 with
      | error e => simp [h1] at h
      | ok host =>
        simp only [h1, Except.ok.injEq] at h
        subst h
        by_cases hkk : k = host
        · subst hkk; simp
        · simp [Function.update_noteq hkk, hk]
    · simp only [Except.ok.injEq] at h
      subst h; exact hk
    · simp only [Except.ok.injEq] at h
      subst h; exact hk
    · simp only [Except.ok.injEq] at h
      subst h; exact hk

/-- A command line without fields, or with a lone `block` or `unblock`, makes
`parseCommand` panic on an index out of range. -/
theorem parseCommand_missing_argument (env : Env) (input : GoString) (st : State)
    (h : Fields (ToLower env input) = []
      ∨ Fields (ToLower env input) = ["block".toList]
      ∨ Fields (ToLower env input) = ["unblock".toList]) :
    failureOf (parseCommand env input st) = some Failure.indexOutOfRange := by
  unfold parseCommand
  rcases h with h | h | h <;>
    simp only [h, index, bind, Except.bind, pure, Except.pure] <;> rfl


/-! # The claims -/

/-- C1: for every input `s`, `stripSubDomains` returns, without panicking, the
value of the reference rule.  With `h` the part of `s` before its first colon:
when `h` has fewer than two dots the result is `h`; when `h` has two or more
dots the result `r` is the part of `h` right after a dot (`h = p ++ "." ++ r`)
with exactly one dot in it, that is, the substring after the second-to-last
dot.  In that case the slice assigned on line 122 is `r` and is not empty, so
the fallback of lines 124-126 is not taken. -/
theorem stripSubDomains_reference_rule (s : GoString) :
    stripSubDomains s = .ok (stripSubDomainsRef s) ∧
    ((hostPart s).count '.' < 2 → stripSubDomains s = .ok (hostPart s)) ∧
    (2 ≤ (hostPart s).count '.' →
      ∃ p r m, hostPart s = p ++ '.' :: r ∧ r.count '.' = 1 ∧
        stripSubDomains s = .ok r ∧
        index (FindAllStringIndex (hostPart s))
          ((FindAllStringIndex (hostPart s)).length - 2) = .ok m ∧
        sliceFrom (hostPart s) m.2 = .ok r ∧ r ≠ []) := by
  refine ⟨stripSubDomains_eq_ref s, ?_, ?_⟩
  · intro h
    rw [stripSubDomains_eq_ref]
    have : ¬ 2 ≤ (hostPart s).count '.' := by omega
    simp [stripSubDomainsRef, this]
  · intro h2
    obtain ⟨p, hp, hcount⟩ := afterSecondToLastDot_spec (hostPart s) h2
    have hlen := length_findAllDots (hostPart s) 0
    obtain ⟨m, hm, _, hle, hdrop⟩ := findAllDots_secondToLast (hostPart s) 0 (by omega)
    refine ⟨p, afterSecondToLastDot (hostPart s), m, hp, hcount, ?_, ?_, ?_, ?_⟩
    · rw [stripSubDomains_eq_ref]
      simp [stripSubDomainsRef, h2]
    · unfold index FindAllStringIndex
      rw [hm]
    · unfold sliceFrom
      rw [if_pos (by omega)]
      simpa using hdrop
    · intro e
      rw [e] at hcount
      simp at hcount

/-- Instance of `stripSubDomains_reference_rule` at the two examples of the
specification. -/
theorem stripSubDomains_reference_rule_witness :
    stripSubDomains "a.b.example.com:443".toList = .ok "example.com".toList ∧
    stripSubDomains "localhost:8080".toList = .ok "localhost".toList ∧
    (∃ p r m, hostPart "a.b.example.com:443".toList = p ++ '.' :: r ∧ r.count '.' = 1 ∧
        stripSubDomains "a.b.example.com:443".toList = .ok r ∧
        index (FindAllStringIndex (hostPart "a.b.example.com:443".toList))
          ((FindAllStringIndex (hostPart "a.b.example.com:443".toList)).length - 2)
            = .ok m ∧
        sliceFrom (hostPart "a.b.example.com:443".toList) m.2 = .ok r ∧ r ≠ []) :=
  ⟨(stripSubDomains_reference_rule "a.b.example.com:443".toList).1.trans (by decide),
   ((stripSubDomains_reference_rule "localhost:8080".toList).2.1 (by decide)).trans
     (by decide),
   (stripSubDomains_reference_rule "a.b.example.com:443".toList).2.2 (by decide)⟩

/-- C2: for every request, CONNECT or not, from which `connectionHandler`
extracts a target host with normalised base host `base`: when the blacklist
maps `base` to `true` the handler writes status 403 on the fresh writer, writes
no body, and the only action is closing the request body (the store, the body
streams and the blacklist are untouched; no `storage.Get`, `storage.Store`,
upstream call, dial or relay happens); when `base` is absent or mapped to
`false` the handler is exactly `handleHTTPS` (CONNECT), which always returns,
or `handleHTTP` (otherwise) on the same writer and state, so any status then
written is written by those. -/
theorem blocked_host_forbidden (env : Env) (tGet tStore : Int) (hj : Hijack)
    (request : Request) (st : State) (host base : GoString)
    (hhost : requestURL request = .ok host)
    (hbase : stripSubDomains host = .ok base) :
    (st.blacklist base = some true →
      ∃ w', connectionHandler env tGet tStore (ResponseWriter.new hj) request st
          = .ok (w', { st with trace := st.trace ++ [Event.closeRequestBody] }) ∧
        w'.status = some StatusForbidden ∧ w'.body = []) ∧
    (st.blacklist base = none ∨ st.blacklist base = some false →
      connectionHandler env tGet tStore (ResponseWriter.new hj) request st
        = (if request.Method = MethodConnect then
            handleHTTPS env (ResponseWriter.new hj) request st
          else handleHTTP env tGet tStore (ResponseWriter.new hj) request st) ∧
      ∃ r, handleHTTPS env (ResponseWriter.new hj) request st = .ok r) := by
  have hb : base = stripSubDomainsRef host := by
    rw [stripSubDomains_eq_ref] at hbase
    exact (Except.ok.inj hbase).symm
  rw [connectionHandler_eq env tGet tStore _ request st host hhost, ← hb]
  constructor
  · intro h
    rw [h]
    exact ⟨_, rfl, rfl, rfl⟩
  · intro h
    refine ⟨?_, handleHTTPS_returns env _ request st⟩
    rcases h with h | h <;> rw [h]

/-- Instance of `blocked_host_forbidden`: with `example.com` blocked, a CONNECT
to `www.example.com:443` and a GET of `http://www.example.com/x` are both
answered with 403; with an empty blacklist the GET goes to `handleHTTP`. -/
theorem blocked_host_forbidden_witness :
    (∃ w', connectionHandler sampleEnv sampleNow sampleNow
          (ResponseWriter.new Hijack.succeeds) sampleConnect
          (sampleBlocking "example.com".toList)
        = .ok (w', { sampleBlocking "example.com".toList with
            trace := (sampleBlocking "example.com".toList).trace
              ++ [Event.closeRequestBody] }) ∧
      w'.status = some StatusForbidden ∧ w'.body = []) ∧
    (∃ w', connectionHandler sampleEnv sampleNow sampleNow
          (ResponseWriter.new Hijack.succeeds) (sampleRequest MethodGet)
          (sampleBlocking "example.com".toList)
        = .ok (w', { sampleBlocking "example.com".toList with
            trace := (sampleBlocking "example.com".toList).trace
              ++ [Event.closeRequestBody] }) ∧
      w'.status = some StatusForbidden ∧ w'.body = []) ∧
    connectionHandler sampleEnv sampleNow sampleNow
        (ResponseWriter.new Hijack.succeeds) (sampleRequest MethodGet) setup
      = if (sampleRequest MethodGet).Method = MethodConnect then
          handleHTTPS sampleEnv (ResponseWriter.new Hijack.succeeds)
            (sampleRequest MethodGet) setup
        else handleHTTP sampleEnv sampleNow sampleNow
          (ResponseWriter.new Hijack.succeeds) (sampleRequest MethodGet) setup :=
  ⟨(blocked_host_forbidden sampleEnv sampleNow sampleNow Hijack.succeeds sampleConnect
      (sampleBlocking "example.com".toList) "www.example.com".toList
      "example.com".toList (by decide) (by decide)).1 (by decide),
   (blocked_host_forbidden sampleEnv sampleNow sampleNow Hijack.succeeds
      (sampleRequest MethodGet) (sampleBlocking "example.com".toList)
      "www.example.com".toList "example.com".toList (by decide) (by decide)).1
      (by decide),
   ((blocked_host_forbidden sampleEnv sampleNow sampleNow Hijack.succeeds
      (sampleRequest MethodGet) setup "www.example.com".toList "example.com".toList
      (by decide) (by decide)).2 (Or.inl rfl)).1⟩


/-- C5, evaluated on the code: a first GET of `http://www.example.com/x` makes
one upstream call, stores the response and relays status 200, the header and
the body `hi`; a second GET one second later makes no further upstream call and
relays status 200 and the same header plus the marker, but an empty body: the
stored `Response` shares the body stream that the first request read to its
end. -/
theorem second_get_serves_empty_body :
    (handleHTTP sampleEnv sampleNow sampleNow (ResponseWriter.new Hijack.succeeds)
        (sampleRequest MethodGet) setup).map
      (fun r => (observe r, (r.2.storage.items sampleURI).isSome))
      = .ok ({ status := some 200,
               header := [("Content-Type".toList, "text/plain".toList)],
               body := [104, 105], upstreamCalls := 1, relaysStarted := 0 }, true) ∧
    ((handleHTTP sampleEnv sampleNow sampleNow (ResponseWriter.new Hijack.succeeds)
        (sampleRequest MethodGet) setup).bind
      (fun r => handleHTTP sampleEnv (sampleNow + 1000000000) (sampleNow + 1000000000)
        (ResponseWriter.new Hijack.succeeds) (sampleRequest MethodGet) r.2)).map observe
      = .ok { status := some 200,
              header := [("Cached".toList, "1".toList),
                ("Content-Type".toList, "text/plain".toList)],
              body := [], upstreamCalls := 1, relaysStarted := 0 } := by
  decide

/-- C6 fails as stated: `parseCommand` lower-cases the whole line, so after
`block Example.com` the key `Example.com` is absent from the blacklist; the
entry is made under `example.com`. -/
theorem block_uppercase_counterexample :
    (parseCommand sampleEnv "block Example.com".toList setup).map
      (fun st => (st.blacklist "Example.com".toList, st.blacklist "example.com".toList))
      = .ok (none, some true) := by
  decide

/-- C6 (amended): for every host string `h` whose lower-cased form
`ToLower(h)` is one non-empty token free of white space, `parseCommand` of
`block h` (with or without the final newline) makes `blacklist[ToLower(h)]`
present and `true`; a following `unblock h` makes it present and `false`, not
deleted.  No console command removes a key from the blacklist. -/
theorem block_then_unblock (env : Env) (h trail1 trail2 : GoString) (st : State)
    (hne : ToLower env h ≠ []) (hsp : ∀ c ∈ ToLower env h, isSpace c = false)
    (ht1 : trail1 = [] ∨ trail1 = ['\n']) (ht2 : trail2 = [] ∨ trail2 = ['\n']) :
    (∃ st1 st2,
      parseCommand env ("block ".toList ++ h ++ trail1) st = .ok st1 ∧
      st1.blacklist (ToLower env h) = some true ∧
      parseCommand env ("unblock ".toList ++ h ++ trail2) st1 = .ok st2 ∧
      st2.blacklist (ToLower env h) = some false) ∧
    (∀ (input : GoString) (s s' : State), parseCommand env input s = .ok s' →
      ∀ k, (s.blacklist k).isSome = true → (s'.blacklist k).isSome = true) := by
  refine ⟨⟨_, _, parseCommand_block env h trail1 st hne hsp ht1, ?_,
    parseCommand_unblock env h trail2 _ hne hsp ht2, ?_⟩, ?_⟩
  · simp
  · simp
  · intro input s s' hs k hk
    exact parseCommand_keeps_keys env input s s' hs k hk

/-- Instance of `block_then_unblock` at `example.com`, typed with a newline. -/
theorem block_then_unblock_witness :
    ∃ st1 st2,
      parseCommand sampleEnv ("block ".toList ++ "example.com".toList ++ ['\n']) setup
        = .ok st1 ∧
      st1.blacklist (ToLower sampleEnv "example.com".toList) = some true ∧
      parseCommand sampleEnv ("unblock ".toList ++ "example.com".toList ++ ['\n']) st1
        = .ok st2 ∧
      st2.blacklist (ToLower sampleEnv "example.com".toList) = some false :=
  (block_then_unblock sampleEnv "example.com".toList ['\n'] ['\n'] setup
    (by decide) (by decide) (Or.inr rfl) (Or.inr rfl)).1

/-- C7 fails as stated, at three inputs.  (1) A POST of `sampleURI` answered
with body `hi`, then a GET two seconds later: the GET is answered from the cache
with no upstream call but relays an empty body, not the POST's response body.
(2) A POST five nanoseconds before the largest `int64` instant, then a GET at
the same instant: the expiry wrapped, the entry counts as expired and the GET
makes a second upstream call.  (3) An origin answering with status code 42:
after the store of lines 148-160 a GET of the same URI within the TTL panics in
`WriteHeader` instead of being served. -/
theorem get_after_post_counterexample :
    ((handleHTTP sampleEnv sampleNow sampleNow (ResponseWriter.new Hijack.succeeds)
        (sampleRequest "POST".toList) setup).map (fun r => (observe r).body)
        = .ok [104, 105] ∧
      ((handleHTTP sampleEnv sampleNow sampleNow (ResponseWriter.new Hijack.succeeds)
          (sampleRequest "POST".toList) setup).bind
        (fun r => handleHTTP sampleEnv (sampleNow + 2000000000) (sampleNow + 2000000000)
          (ResponseWriter.new Hijack.succeeds) (sampleRequest MethodGet) r.2)).map
        (fun r => ((observe r).body, (observe r).upstreamCalls))
        = .ok ([], 1)) ∧
    (maxInt64 - 5 ≤ maxInt64 - 5 ∧ maxInt64 - 5 ≤ maxInt64 - 5 + cacheDuration ∧
      ((handleHTTP sampleEnv (maxInt64 - 5) (maxInt64 - 5)
          (ResponseWriter.new Hijack.succeeds) (sampleRequest "POST".toList) setup).bind
        (fun r => handleHTTP sampleEnv (maxInt64 - 5) (maxInt64 - 5)
          (ResponseWriter.new Hijack.succeeds) (sampleRequest MethodGet) r.2)).map
        (fun r => (observe r).upstreamCalls)
        = .ok 2) ∧
    failureOf
      ((forwardAndStore sampleEnv42 sampleNow (sampleRequest "POST".toList) setup).bind
        (fun r => handleHTTP sampleEnv42 (sampleNow + 2000000000)
          (sampleNow + 2000000000) (ResponseWriter.new Hijack.succeeds)
          (sampleRequest MethodGet) r.2))
      = some Failure.invalidWriteHeaderCode := by
  decide

/-- C7 (amended): every plain-HTTP request that is not served from the cache
(the cache reports not-found, or the method is not GET) and whose upstream call
returns is stored by `handleHTTP` (lines 148-160, before the relay) under its
original `RequestURI`, whatever the method, with `Expiration` the `UnixNano` of
the instant ten seconds after the store, which is `tStore + 10s` while that is
an `int64`.  Consequently, when the status code is one `WriteHeader` accepts
(100 to 999) and the instants are representable as `int64` nanoseconds, a GET
of the same `RequestURI` up to ten seconds after the store is answered from
that entry: `storage.Get` returns the stored response, no upstream call is
made, and the status and headers written are those of the earlier response
plus the marker.  Nothing is stated about the body the GET relays. -/
theorem cache_key_is_uri_only (env : Env) (tGet tStore : Int) (hj : Hijack)
    (request : Request) (st : State) (reply : Reply)
    (hmiss : (st.storage.Get request.RequestURI tGet).1.2 = false
      ∨ request.Method ≠ MethodGet)
    (hdo : env.clientDo { request with RequestURI := [] } = some reply) :
    (∃ st', forwardAndStore env tStore request
          { st with trace := st.trace ++ [Event.storageGet request.RequestURI],
                    storage := (st.storage.Get request.RequestURI tGet).2 }
        = .ok ({ StatusCode := reply.StatusCode, Header := reply.Header,
                 Body := some st.nextBody }, st') ∧
      st'.storage.items request.RequestURI
        = some { Content := { StatusCode := reply.StatusCode, Header := reply.Header,
                              Body := some st.nextBody },
                 Expiration := UnixNano (tStore + cacheDuration) } ∧
      handleHTTP env tGet tStore (ResponseWriter.new hj) request st
        = (relayResponse env (ResponseWriter.new hj)
            { StatusCode := reply.StatusCode, Header := reply.Header,
              Body := some st.nextBody } st').map
            (fun r => (r.1, r.2.emit Event.closeRequestBody))) ∧
    cacheDuration = 10000000000 ∧
    (minInt64 ≤ tStore + cacheDuration → tStore + cacheDuration ≤ maxInt64 →
      UnixNano (tStore + cacheDuration) = tStore + 10000000000) ∧
    (100 ≤ reply.StatusCode → reply.StatusCode ≤ 999 →
      ∀ (tGet2 tStore2 : Int) (hj2 : Hijack) (get : Request),
        get.RequestURI = request.RequestURI → get.Method = MethodGet →
        minInt64 ≤ tGet2 → tGet2 ≤ tStore + cacheDuration →
        tStore + cacheDuration ≤ maxInt64 →
        ∃ w1 st1 w2 st2,
          handleHTTP env tGet tStore (ResponseWriter.new hj) request st = .ok (w1, st1) ∧
          st1.storage.items request.RequestURI
            = some { Content := { StatusCode := reply.StatusCode,
                                  Header := reply.Header, Body := some st.nextBody },
                     Expiration := tStore + 10000000000 } ∧
          handleHTTP env tGet2 tStore2 (ResponseWriter.new hj2) get st1 = .ok (w2, st2) ∧
          (st1.storage.Get request.RequestURI tGet2).1
            = ({ StatusCode := reply.StatusCode, Header := reply.Header,
                 Body := some st.nextBody }, true) ∧
          st2.trace = st1.trace ++ [Event.storageGet request.RequestURI,
            Event.closeRequestBody] ∧
          upstreamCalls st2.trace = upstreamCalls st1.trace ∧
          w2.status = some reply.StatusCode ∧
          w2.wireHeader = (env.canonicalKey "cached".toList, "1".toList)
            :: headerEntries env reply.Header) := by
  refine ⟨handleHTTP_forward_stores env tGet tStore _ request st reply hmiss hdo, rfl,
    ?_, ?_⟩
  · intro hlo hhi
    exact wrapInt64_of_range _ hlo hhi
  · intro h1 h2 tGet2 tStore2 hj2 get huri hm hlo hle hhi
    obtain ⟨wa, sa, ha, hget, hb⟩ := handleHTTP_forward_then_get env tGet tStore tGet2
      tStore2 (ResponseWriter.new hj) hj2 request get st reply rfl hmiss hdo h1 h2 huri hm
      hlo hle hhi
    have hfw := handleHTTP_forward env tGet tStore (ResponseWriter.new hj) request st reply
      rfl hmiss hdo h1 h2
    have hsa := (Prod.mk.inj (Except.ok.inj (ha.symm.trans hfw))).2
    refine ⟨wa, sa, _, _, ha, ?_, hb, hget, rfl, ?_, rfl, rfl⟩
    · rw [hsa]
      have hexp : UnixNano (tStore + cacheDuration) = tStore + 10000000000 :=
        wrapInt64_of_range _ (le_trans hlo hle) hhi
      rw [← hexp]
      exact Store_items_self _ _ _ _ _
    · simp [upstreamCalls, List.filter_append]

/-- Instance of `cache_key_is_uri_only`: a POST of `sampleURI` is stored under
`sampleURI`, and a GET of `sampleURI` two seconds later is answered from that
entry with status 200 and one upstream call in all. -/
theorem cache_key_is_uri_only_witness :
    (∃ st', forwardAndStore sampleEnv sampleNow (sampleRequest "POST".toList)
          { setup with
              trace := setup.trace ++ [Event.storageGet (sampleRequest "POST".toList).RequestURI],
              storage := (setup.storage.Get (sampleRequest "POST".toList).RequestURI
                sampleNow).2 }
        = .ok ({ StatusCode := 200,
                 Header := [("Content-Type".toList, ["text/plain".toList])],
                 Body := some setup.nextBody }, st') ∧
      st'.storage.items sampleURI
        = some { Content := { StatusCode := 200,
                              Header := [("Content-Type".toList, ["text/plain".toList])],
                              Body := some setup.nextBody },
                 Expiration := UnixNano (sampleNow + cacheDuration) }) ∧
    (∃ w1 st1 w2 st2,
      handleHTTP sampleEnv sampleNow sampleNow (ResponseWriter.new Hijack.succeeds)
        (sampleRequest "POST".toList) setup = .ok (w1, st1) ∧
      handleHTTP sampleEnv (sampleNow + 2000000000) (sampleNow + 2000000000)
        (ResponseWriter.new Hijack.succeeds) (sampleRequest MethodGet) st1
        = .ok (w2, st2) ∧
      upstreamCalls st2.trace = upstreamCalls st1.trace ∧
      w2.status = some 200) := by
  obtain ⟨⟨st', hst, hitem, _⟩, _, _, hrest⟩ :=
    cache_key_is_uri_only sampleEnv sampleNow sampleNow Hijack.succeeds
      (sampleRequest "POST".toList) setup
      { StatusCode := 200, Header := [("Content-Type".toList, ["text/plain".toList])],
        body := [104, 105] }
      (Or.inr (by decide)) rfl
  obtain ⟨w1, st1, w2, st2, h1, _, h2, _, _, hcalls, hstatus, _⟩ :=
    hrest (by decide) (by decide) (sampleNow + 2000000000) (sampleNow + 2000000000)
      Hijack.succeeds (sampleRequest MethodGet) rfl rfl (by decide) (by decide) (by decide)
  exact ⟨⟨st', hst, hitem⟩, w1, st1, w2, st2, h1, h2, hcalls, hstatus⟩

/-- C8, evaluated on the code: for a CONNECT whose dial succeeds on a writer
that is not a hijacker, the first status written is 200 (line 190), so the 500
of `http.Error` is ignored and the client sees 200; no relay is started. -/
theorem connect_without_hijacker_status :
    (handleHTTPS sampleEnv (ResponseWriter.new Hijack.unsupported)
        sampleConnect setup).map observe
      = .ok { status := some 200, header := [],
              body := "Hijacking not supported\n".toList.flatMap String.utf8EncodeChar,
              upstreamCalls := 0, relaysStarted := 0 } ∧
    (connectionHandler sampleEnv sampleNow sampleNow
        (ResponseWriter.new Hijack.unsupported) sampleConnect setup).map
        (fun r => ((observe r).status, (observe r).relaysStarted))
      = .ok (some 200, 0) := by
  decide

/-- C9, evaluated on the code: `block` and `unblock` without an argument, and
lines of white space other than a lone newline, make `parseCommand` panic with
an index out of range instead of reporting an error. -/
theorem console_missing_argument_panics :
    failureOf (readConsoleStep sampleEnv "block\n".toList setup)
      = some Failure.indexOutOfRange ∧
    failureOf (readConsoleStep sampleEnv "unblock\n".toList setup)
      = some Failure.indexOutOfRange ∧
    failureOf (readConsoleStep sampleEnv " \n".toList setup)
      = some Failure.indexOutOfRange ∧
    failureOf (readConsoleStep sampleEnv "\r\n".toList setup)
      = some Failure.indexOutOfRange ∧
    failureOf (parseCommand sampleEnv "block\n".toList setup)
      = some Failure.indexOutOfRange := by
  decide

/-- C10: for every input `s`, `stripSubDomains s` returns a string with no
colon and at most one dot, which the normaliser maps to itself.  A blacklist
entry under a key `k` that has a colon or two or more dots has no effect on the
dispatcher: for every request and state, `connectionHandler` with the entry
`k ↦ v` set behaves as without it (same failure, or same writer and same
resulting state apart from that entry), so it never brings about a 403. -/
theorem base_host_normal_form :
    (∀ s : GoString, ∃ r, stripSubDomains s = .ok r ∧ ':' ∉ r ∧ r.count '.' ≤ 1 ∧
      stripSubDomains r = .ok r) ∧
    (∀ (k : GoString), (':' ∈ k ∨ 2 ≤ k.count '.') →
      ∀ (v : Option Bool) (env : Env) (tGet tStore : Int) (w : ResponseWriter)
        (request : Request) (st : State),
        connectionHandler env tGet tStore w request
            { st with blacklist := Function.update st.blacklist k v }
          = (connectionHandler env tGet tStore w request st).map
              (fun r => (r.1,
                { r.2 with blacklist := Function.update st.blacklist k v }))) := by
  constructor
  · intro s
    obtain ⟨hc, hd⟩ := stripSubDomainsRef_normal s
    refine ⟨stripSubDomainsRef s, stripSubDomains_eq_ref s, hc, hd, ?_⟩
    rw [stripSubDomains_eq_ref, stripSubDomainsRef_of_normal _ hc hd]
  · intro k hk v env tGet tStore w request st
    cases hhost : requestURL request with
    | error e =>
      simp [connectionHandler, hhost, bind, Except.bind, Except.map]
    | ok host =>
      rw [connectionHandler_eq env tGet tStore w request _ host hhost,
        connectionHandler_eq env tGet tStore w request st host hhost]
      obtain ⟨hc, hd⟩ := stripSubDomainsRef_normal host
      have hne : stripSubDomainsRef host ≠ k := by
        intro e
        rw [e] at hc hd
        rcases hk with h | h
        · exact hc h
        · omega
      simp only [Function.update_noteq hne]
      rw [handleHTTP_blacklist, handleHTTPS_blacklist]
      cases hb : st.blacklist (stripSubDomainsRef host) with
      | none => simp only []; split_ifs <;> rfl
      | some b =>
        cases b with
        | true =>
          simp only [State.emit]
          cases w.WriteHeader StatusForbidden with
          | error e => rfl
          | ok w' => rfl
        | false => simp only []; split_ifs <;> rfl

/-- Instance of `base_host_normal_form`: with `www.example.com` on the
blacklist a GET of `http://www.example.com/x` is answered with the upstream
status 200, not 403. -/
theorem base_host_normal_form_witness :
    (connectionHandler sampleEnv sampleNow sampleNow (ResponseWriter.new Hijack.succeeds)
        (sampleRequest MethodGet) (sampleBlocking "www.example.com".toList)).map
      (fun r => r.1.status) = .ok (some 200) := by
  have h := base_host_normal_form.2 "www.example.com".toList (Or.inr (by decide))
    (some true) sampleEnv sampleNow sampleNow (ResponseWriter.new Hijack.succeeds)
    (sampleRequest MethodGet) setup
  have e : sampleBlocking "www.example.com".toList
      = { setup with blacklist :=
            Function.update setup.blacklist "www.example.com".toList (some true) } := rfl
  rw [e, h]
  decide

end GoProxy
